import Mathlib

/-!
# Verification of the supriya non-realtime timeline engine

Shallow embedding of the core of `supriya/nonrealtime/Session.py` and
`supriya/tools/nonrealtimetools/Synth.py`: the offset/state timeline, the
deterministic id-mapping builder, the per-offset request compiler, the bundle
linearizer, and per-synth piecewise-constant parameter automation.

Python floats used as time coordinates (including `float("-inf")` and
`float("inf")`) are embedded as `WithBot (WithTop ℚ)`; machine floats carrying
ordinary finite values are embedded as `ℚ`.  Python classes that are absent
from the repository snapshot (`State`, `Moment`, `Buffer`, `Bus`,
`BlockAllocator`, …) are modelled from the specification; each such definition
says so in its doc comment.
-/

/-- Time coordinate of the session timeline: a rational, `-inf`, or `inf`.
`⊥` embeds Python's `float("-inf")`, `⊤` embeds `float("inf")`. -/
abbrev XTime : Type := WithBot (WithTop ℚ)

/-- Embed a finite rational time. -/
def xfin (q : ℚ) : XTime := ((q : WithTop ℚ) : XTime)

/-- Extract a finite rational time, with a default for `±inf`
(the callers below only apply it to finite values). -/
def XTime.toRatD (d : ℚ) : XTime → ℚ
  | (some (some q) : WithBot (WithTop ℚ)) => q
  | _ => d

@[simp] theorem xfin_toRatD (q d : ℚ) : (xfin q).toRatD d = q := rfl

@[simp] theorem xfin_lt_xfin {a b : ℚ} : xfin a < xfin b ↔ a < b := by
  simp [xfin]

@[simp] theorem xfin_le_xfin {a b : ℚ} : xfin a ≤ xfin b ↔ a ≤ b := by
  simp [xfin]

@[simp] theorem xfin_inj {a b : ℚ} : xfin a = xfin b ↔ a = b := by
  simp [xfin]

@[simp] theorem bot_lt_xfin (q : ℚ) : (⊥ : XTime) < xfin q := by
  simp [xfin]

attribute [local semireducible] Rat.sub Rat.add Rat.mul Rat.inv

namespace SynthAuto

/-!
## Per-synth parameter automation (`supriya/tools/nonrealtimetools/Synth.py`)

A synth's `_events` maps parameter names to sorted lists of
`(relative timestep, value)` breakpoints.  Only numeric values are modelled
(the Python methods compare values with `<` during the binary search, which is
only meaningful for numbers).
-/

/-- Lexicographic strict order on `(timestep, value)` pairs, embedding Python's
tuple comparison used by `bisect.bisect_left` on the event lists. -/
def pairLt (a b : ℚ × ℚ) : Bool :=
  a.1 < b.1 || (a.1 = b.1 && a.2 < b.2)

/-- `bisect.bisect_left(events, x)` on a sorted list: the number of leading
elements strictly smaller than `x`.  The Python binary search computes exactly
this insertion point whenever the list is sorted, which the event lists are by
construction. -/
def bisectLeft (events : List (ℚ × ℚ)) (x : ℚ × ℚ) : ℕ :=
  (events.takeWhile (fun e => pairLt e x)).length

/-- The compiled synthesis definition as consumed by the automation code:
parameter names with default values. -/
structure SynthDefA where
  parameters : List (String × ℚ)
  hasGate : Bool
  deriving DecidableEq, Repr

/-- A non-realtime synth as far as parameter automation is concerned:
its timespan, synthdef, creation-time keyword arguments, and the per-parameter
breakpoint lists (`Synth._events`). -/
structure SynthA where
  startOffset : ℚ
  stopOffset : XTime
  synthdef : SynthDefA
  synthKwargs : List (String × ℚ)
  events : List (String × List (ℚ × ℚ))
  deriving DecidableEq

/-- `Timespan.duration`: stop offset minus start offset (`inf` if unbounded). -/
def SynthA.duration (s : SynthA) : XTime :=
  match s.stopOffset with
  | (some (some q) : WithBot (WithTop ℚ)) => xfin (q - s.startOffset)
  | x => x

/-- Look up a parameter's event list in `_events` (`self._events.get(item)`). -/
def SynthA.eventsFor (s : SynthA) (item : String) : Option (List (ℚ × ℚ)) :=
  (s.events.find? (fun p => p.1 = item)).map Prod.snd

/-- The creation-time default read by `_get_at_timestep`:
`self.synthdef.parameters[item].value`, overridden by
`self._synth_kwargs.get(item, default)`.  (A parameter name absent from the
synthdef raises `KeyError` in Python; the model totalises it with `0`.) -/
def SynthA.defaultFor (s : SynthA) (item : String) : ℚ :=
  let d := ((s.synthdef.parameters.find? (fun p => p.1 = item)).map Prod.snd).getD 0
  ((s.synthKwargs.find? (fun p => p.1 = item)).map Prod.snd).getD d

/-- `Synth._get_at_timestep(timestep, item)`: binary-search point lookup with
last-value-held-before semantics. -/
def SynthA.getAtTimestep (s : SynthA) (timestep : ℚ) (item : String) : ℚ :=
  let t := timestep - s.startOffset
  let default := s.defaultFor item
  match s.eventsFor item with
  | none => default
  | some [] => default
  | some events =>
    let index := bisectLeft events (t, 0)
    let e := if events.length ≤ index then events.getLastD (0, 0) else events.getD index (0, 0)
    if e.1 = t then e.2
    else if index = 0 then default
    else (events.getD (index - 1) (0, 0)).2

/-- Replace the event list stored for `item` (helper for `_set_at_timestep`;
`setdefault` semantics: a missing key is first bound to `[]`). -/
def SynthA.setEvents (s : SynthA) (item : String) (evs : List (ℚ × ℚ)) : SynthA :=
  if (s.events.find? (fun p => p.1 = item)).isSome then
    { s with events := s.events.map (fun p => if p.1 = item then (p.1, evs) else p) }
  else
    { s with events := s.events ++ [(item, evs)] }

/-- The core of `Synth._set_at_timestep` acting on one event list, after the
out-of-range guard has passed. -/
def insertEvent (events : List (ℚ × ℚ)) (t v : ℚ) : List (ℚ × ℚ) :=
  if events.isEmpty then [(t, v)]
  else
    let index := bisectLeft events (t, v)
    let events' := if events.length ≤ index then events ++ [(t, v)] else events
    let e := events'.getD index (0, 0)
    if e.1 = t then events'.set index (t, v)
    else events'.insertIdx index (t, v)

/-- `Synth._set_at_timestep(timestep, item, value)`: writes outside
`[0, duration]` (relative to the synth's start) return without mutating. -/
def SynthA.setAtTimestep (s : SynthA) (timestep : ℚ) (item : String) (value : ℚ) : SynthA :=
  let t := timestep - s.startOffset
  if t < 0 ∨ s.duration < xfin t then s
  else
    let events := (s.eventsFor item).getD []
    s.setEvents item (insertEvent events t value)

end SynthAuto

namespace SynthAuto

/-- A base synth for concrete evaluations: interval `[0, 20]`, one parameter
`"frequency"` with default `440`, no breakpoints yet. -/
def synBase : SynthA :=
  { startOffset := 0
    stopOffset := xfin 20
    synthdef := { parameters := [("frequency", 440)], hasGate := true }
    synthKwargs := []
    events := [] }

/-- C4: the automation round-trip law fails on the code.  Writing breakpoint
value `1` at `T = 5` and then overwriting with `2` at the same `T` leaves TWO
breakpoints `[(5, 1), (5, 2)]` (the write's `bisect_left` compares the whole
`(timestep, value)` tuple, so it lands *after* the existing smaller-valued
breakpoint instead of on it), and the subsequent read at `T = 5` binary-searches
with `(5, 0.0)` and returns the stale first breakpoint `1`, not the written `2`. -/
theorem set_then_get_at_timestep_returns_stale_value :
    ((synBase.setAtTimestep 5 "frequency" 1).setAtTimestep 5 "frequency" 2).events
        = [("frequency", [(5, 1), (5, 2)])]
      ∧ ((synBase.setAtTimestep 5 "frequency" 1).setAtTimestep 5
            "frequency" 2).getAtTimestep 5 "frequency" = 1
      ∧ (1 : ℚ) ≠ 2 := by
  refine ⟨by decide, by decide, by decide⟩

/-- C9: a write whose relative timestep is strictly negative or strictly
greater than the synth's duration returns without raising and leaves the
synth — in particular every breakpoint list in `_events` — unchanged. -/
theorem setAtTimestep_out_of_range_is_noop (s : SynthA) (timestep : ℚ)
    (item : String) (value : ℚ)
    (h : timestep - s.startOffset < 0 ∨ s.duration < xfin (timestep - s.startOffset)) :
    s.setAtTimestep timestep item value = s := by
  unfold SynthA.setAtTimestep
  simp only [if_pos h]

/-- Witness for C9 at a concrete input: the synth occupies `[0, 20]`, the write
at absolute time `25` (relative timestep `25`, beyond the duration) is ignored. -/
theorem setAtTimestep_out_of_range_is_noop_witness :
    synBase.setAtTimestep 25 "frequency" 9 = synBase :=
  setAtTimestep_out_of_range_is_noop synBase 25 "frequency" 9 (Or.inr (by decide))

end SynthAuto

namespace NRT

/-!
## Data model (`supriya/nonrealtime/Session.py` and its collaborators)

`Session.py` is present in the repository snapshot and is embedded faithfully
below.  The collaborating classes (`State`, `Buffer`, `Bus`, `BusGroup`,
`Node`/`Synth`/`Group`, `BlockAllocator`, `NodeIdAllocator`, request classes)
are absent from the snapshot; their small surfaces used by `Session.py` are
modelled from the specification and are marked as such.
-/

/-- Bus calculation rate (`supriya.CalculationRate`). -/
inductive CalcRate
  | audio
  | control
  deriving DecidableEq, Repr

/-- Declared rate of a synthdef parameter (`supriya.ParameterRate`);
`scalar` parameters are fixed at creation and skipped by node-set requests. -/
inductive ParamRate
  | scalar
  | control
  | audio
  deriving DecidableEq, Repr

/-- Modelled from the spec: the opaque compiled definition consumed by the
session — a content-hash name (`anonymous_name`) plus declared parameters,
each with a rate tag and a default value. -/
structure SynthDefM where
  name : String
  params : List (String × ParamRate × ℚ)
  deriving DecidableEq, Repr

/-- `synthdef.parameter_names`. -/
def SynthDefM.parameterNames (sd : SynthDefM) : List String :=
  sd.params.map Prod.fst

/-- `synthdef.parameters[key].parameter_rate` (`none` when undeclared). -/
def SynthDefM.rateOf (sd : SynthDefM) (key : String) : Option ParamRate :=
  (sd.params.find? (fun p => p.1 = key)).map (fun p => p.2.1)

/-- Key of an object in the id mapping.  Python keys the mapping by the
timeline objects themselves; the model keys it by kind plus logical session
id, which identifies the object uniquely. -/
inductive Entity
  | root
  | node (sid : ℕ)
  | buffer (sid : ℕ)
  | bufferGroup (sid : ℕ)
  | bus (sid : ℕ)
  | busGroup (sid : ℕ)
  | audioInputBusGroup
  | audioOutputBusGroup
  | hardwareInBus (index : ℕ)
  | hardwareOutBus (index : ℕ)
  deriving DecidableEq, Repr

/-- A value assigned to a node parameter: a number, a reference to a
(control/audio) bus or bus group, a buffer reference, or Python `None`. -/
inductive Value
  | num (q : ℚ)
  | busRef (rate : CalcRate) (key : Entity)
  | bufRef (key : Entity)
  | nil
  deriving DecidableEq, Repr

/-- Kind of a timeline node: a group, or a synth owning a compiled definition
and creation-time keyword arguments. -/
inductive NodeKind
  | group
  | synth (synthdef : SynthDefM) (synthKwargs : List (String × Value))
  deriving DecidableEq, Repr

/-- A timeline node.  `events` holds the per-parameter automation breakpoints
(relative time, value); modelled from the spec for `Node._collect_settings`. -/
structure Node where
  sessionId : ℕ
  isRoot : Bool := false
  startOffset : ℚ := 0
  stopOffset : XTime := ⊤
  kind : NodeKind := NodeKind.group
  events : List (String × List (ℚ × Value)) := []
  deriving DecidableEq, Repr

/-- The session's implicit root node (id 0). -/
def rootNode : Node :=
  { sessionId := 0, isRoot := true }

/-- The id-mapping key of a node (`RootNode` is a distinguished object). -/
def Node.entity (n : Node) : Entity :=
  if n.isRoot then Entity.root else Entity.node n.sessionId

/-- `hasattr(node, "synthdef")`. -/
def Node.hasSynthdef (n : Node) : Bool :=
  match n.kind with
  | NodeKind.synth _ _ => true
  | NodeKind.group => false

/-- `"gate" in node.synthdef.parameter_names` for synths, `false` otherwise. -/
def Node.hasGate (n : Node) : Bool :=
  match n.kind with
  | NodeKind.synth sd _ => sd.parameterNames.contains "gate"
  | NodeKind.group => false

/-- `node.duration` is truthy iff the timespan is not degenerate. -/
def Node.durationIsTruthy (n : Node) : Bool :=
  ¬ (n.stopOffset = xfin n.startOffset)

/-- A recorded node-tree transition (`state.transitions` entry): the moved or
created node, the integer add-action code, and the target node.  Modelled from
the spec (§3: "add node under parent with placement rule, move node"). -/
structure Transition where
  source : Node
  addAction : ℕ
  target : Node
  deriving DecidableEq, Repr

/-- Buffer post-allocation / pre-free event types, mirroring the request
classes listed in `Session._ordered_buffer_post_alloc_request_types` and
`Session._ordered_buffer_pre_free_request_types`. -/
inductive BufOp
  | read
  | readChannel
  | zero
  | fill
  | generate
  | setB
  | setContiguous
  | normalize
  | copy
  | write
  deriving DecidableEq, Repr

/-- The channel geometry of a buffer: unspecified, a channel count, or an
explicit tuple of channel indices (`buffer_.channel_count` is duck-typed). -/
inductive BufChannels
  | unspecified
  | count (n : ℕ)
  | indices (l : List ℕ)
  deriving DecidableEq, Repr

/-- One recorded buffer event (`buffer_._events` entry): its type, the session
offset it is scheduled at, the `leave_open` flag (reads/writes), and optional
explicit channel indices.  Modelled from the spec: the `Buffer` class that
records these events is absent from the snapshot. -/
structure BufEvent where
  op : BufOp
  offset : XTime
  leaveOpen : Bool := false
  channelIndices : Option (List ℕ) := none
  deriving DecidableEq, Repr

/-- A non-realtime buffer. -/
structure BufferM where
  sessionId : ℕ
  startOffset : ℚ := 0
  stopOffset : XTime := ⊤
  frameCount : Option ℕ := none
  channelCount : BufChannels := BufChannels.unspecified
  filePath : Option String := none
  startingFrame : Option ℕ := none
  bufferGroup : Option (ℕ × List ℕ) := none
  events : List BufEvent := []
  deriving DecidableEq, Repr

/-- A non-realtime bus.  A grouped bus records its owning group's session id
and the group's width (`len(bus.bus_group)`); `events` is the control-rate
value automation (offset, value). -/
structure BusM where
  sessionId : ℕ
  rate : CalcRate := CalcRate.control
  busGroup : Option (ℕ × ℕ) := none
  events : List (XTime × ℚ) := []
  deriving DecidableEq, Repr

/-- A wire-level request, as emitted by the request compiler.  Payload fields
not inspected by any control flow are reduced to the id/flag content that the
compiler itself computes. -/
inductive Request
  | synthdefReceive (name : String)
  | bufferAllocate (bufferId : ℕ) (frameCount channelCount : ℕ)
  | bufferAllocateRead (bufferId : ℕ) (filePath : String)
  | bufferAllocateReadChannel (bufferId : ℕ) (filePath : String) (channelIndices : List ℕ)
  | bufferRead (bufferId : ℕ) (leaveOpen : Bool)
  | bufferReadChannel (bufferId : ℕ) (leaveOpen : Bool) (channelIndices : List ℕ)
  | bufferZero (bufferId : ℕ)
  | bufferFill (bufferId : ℕ)
  | bufferGenerate (bufferId : ℕ)
  | bufferSet (bufferId : ℕ)
  | bufferSetContiguous (bufferId : ℕ)
  | bufferNormalize (bufferId : ℕ)
  | bufferCopy (targetBufferId : ℕ)
  | bufferWrite (bufferId : ℕ) (leaveOpen : Bool)
  | bufferClose (bufferId : ℕ)
  | bufferFree (bufferId : ℕ)
  | synthNew (synthdefName : String) (nodeId addAction targetId : ℕ)
      (settings : List (String × Value))
  | groupNew (nodeId addAction targetId : ℕ)
  | nodeMove (nodeId addAction targetId : ℕ)
  | nodeFree (nodeIds : List ℕ)
  | nodeSet (nodeId : ℕ) (settings : List (String × ℚ))
  | nodeMapToAudioBus (nodeId : ℕ) (settings : List (String × ℕ))
  | nodeMapToControlBus (nodeId : ℕ) (settings : List (String × ℤ))
  | controlBusSet (indexValuePairs : List (ℕ × ℚ))
  | nothing
  deriving DecidableEq, Repr

/-- A timestamped request bundle (`supriya.commands.RequestBundle`). -/
structure Bundle where
  timestamp : ℚ
  contents : List Request
  deriving DecidableEq, Repr

/-- Modelled from the spec: a `State` records, at one offset, the node-tree
shape (nullable, i.e. "sparse" until resolved), the start/stop/span sets for
nodes and buffers, and the pending transitions. -/
structure StateM where
  offset : XTime
  nodesToChildren : Option (List (Node × List Node)) := none
  startNodes : List Node := []
  stopNodes : List Node := []
  overlapNodes : List Node := []
  startBuffers : List BufferM := []
  stopBuffers : List BufferM := []
  overlapBuffers : List BufferM := []
  transitions : List Transition := []
  deriving DecidableEq, Repr

/-- The non-realtime session: server channel counts, the sorted offset list,
the offset→State mapping, the object collections, and the render padding. -/
structure Session where
  inputCount : ℕ := 0
  outputCount : ℕ := 0
  offsets : List XTime := []
  states : List (XTime × StateM) := []
  nodes : List Node := []
  buffers : List BufferM := []
  buses : List BusM := []
  padding : Option ℚ := none
  deriving DecidableEq, Repr

end NRT

namespace NRT

/-! ### Association-list and set helpers (Python `dict` / `set` surfaces) -/

/-- `d.get(k)`. -/
def lookupAssoc {α β : Type} [DecidableEq α] (l : List (α × β)) (k : α) : Option β :=
  (l.find? (fun p => p.1 = k)).map Prod.snd

/-- `d[k] = v`: replace the binding if the key is present, else append it. -/
def updateAssoc {α β : Type} [DecidableEq α] (l : List (α × β)) (k : α) (v : β) :
    List (α × β) :=
  if (l.find? (fun p => p.1 = k)).isSome then
    l.map (fun p => if p.1 = k then (k, v) else p)
  else l ++ [(k, v)]

/-- `del d[k]`. -/
def removeAssoc {α β : Type} [DecidableEq α] (l : List (α × β)) (k : α) : List (α × β) :=
  l.filter (fun p => ¬ p.1 = k)

/-- `d.update(d')`: fold the second dict's bindings into the first. -/
def updateAll {α β : Type} [DecidableEq α] (l l' : List (α × β)) : List (α × β) :=
  l'.foldl (fun acc p => updateAssoc acc p.1 p.2) l

/-- Set union on lists (`s | t`), keeping the left operand's order. -/
def listUnion {α : Type} [DecidableEq α] (a b : List α) : List α :=
  a ++ b.filter (fun x => ¬ a.contains x)

/-- Set difference on lists (`s - t`). -/
def listDiff {α : Type} [DecidableEq α] (a b : List α) : List α :=
  a.filter (fun x => ¬ b.contains x)

/-- `bisect.bisect_left(offsets, x)` on the sorted offset list: the number of
leading offsets strictly below `x` (what the Python binary search returns on
a sorted list). -/
def bisectLeftX (offsets : List XTime) (x : XTime) : ℕ :=
  (offsets.takeWhile (fun o => o < x)).length

/-- The id mapping produced by `Session._build_id_mapping`. -/
abbrev IdMap : Type := List (Entity × ℕ)

/-- Read an id out of the mapping.  Python raises `KeyError` for a missing
key; the model totalises the lookup with `0`. -/
def lookupId (m : IdMap) (e : Entity) : ℕ :=
  (lookupAssoc m e).getD 0

/-! ### State lookup, cloning, and `Session.at` -/

/-- `self.states.get(offset)`. -/
def Session.lookupState (s : Session) (offset : XTime) : Option StateM :=
  lookupAssoc s.states offset

/-- Index arithmetic of `Session._find_state_before`: `bisect_left`, clamp at
the end, step back over an exact hit, and fail below index 0.  (`none` is also
returned for an empty offset list, where Python would raise `IndexError`.) -/
def findStateBeforeIdx (offsets : List XTime) (offset : XTime) : Option ℕ :=
  if offsets.isEmpty then none
  else
    let i0 : ℤ := bisectLeftX offsets offset
    let i1 : ℤ := if i0 = offsets.length then i0 - 1 else i0
    let old := offsets.getD i1.toNat ⊥
    let i2 : ℤ := if offset ≤ old then i1 - 1 else i1
    if i2 < 0 then none else some i2.toNat

/-- The `with_node_tree` backward walk of `Session._find_state_before`:
from index `i` downward, the first state whose `nodes_to_children` is set.
(A missing state entry would be a `KeyError` in Python; the walk skips it.) -/
def Session.walkBackWithTree (s : Session) : ℕ → Option StateM
  | 0 =>
    match s.lookupState (s.offsets.getD 0 ⊥) with
    | some st => if st.nodesToChildren.isSome then some st else none
    | none => none
  | i + 1 =>
    match s.lookupState (s.offsets.getD (i + 1) ⊥) with
    | some st => if st.nodesToChildren.isSome then some st else s.walkBackWithTree i
    | none => s.walkBackWithTree i

/-- `Session._find_state_before(offset, with_node_tree)`. -/
def Session.findStateBefore (s : Session) (offset : XTime) (withTree : Bool) :
    Option StateM :=
  match findStateBeforeIdx s.offsets offset with
  | none => none
  | some i =>
    if withTree then s.walkBackWithTree i
    else s.lookupState (s.offsets.getD i ⊥)

/-- Modelled from the spec: `State._clone(new_offset)`.  Cloning to a fresh,
later offset copies the predecessor's resolved tree shape into a new
sparse-transitions state (§4.1); its start/stop sets are empty and its overlap
sets are the predecessor's surviving objects (overlap ∪ start, minus stop).
Cloning to the same offset reproduces the state. -/
def StateM.clone (st : StateM) (newOffset : XTime) : StateM :=
  if newOffset = st.offset then st
  else
    { offset := newOffset
      nodesToChildren := st.nodesToChildren
      startNodes := []
      stopNodes := []
      overlapNodes := listDiff (listUnion st.overlapNodes st.startNodes) st.stopNodes
      startBuffers := []
      stopBuffers := []
      overlapBuffers := listDiff (listUnion st.overlapBuffers st.startBuffers) st.stopBuffers
      transitions := [] }

/-- `Session._find_state_at(offset, clone_if_missing=True)`: reuse the stored
state, or clone the nearest preceding state *with a node tree* and splice the
offset into the offset list right after it.  (With no tree-bearing
predecessor Python would crash; the model returns a blank state unchanged.) -/
def Session.findStateAtClone (s : Session) (offset : XTime) : StateM × Session :=
  match s.lookupState offset with
  | some st => (st, s)
  | none =>
    match s.findStateBefore offset true with
    | none => ({ offset := offset }, s)
    | some old =>
      let st := old.clone offset
      (st,
        { s with
          states := updateAssoc s.states offset st
          offsets := s.offsets.insertIdx (s.offsets.indexOf old.offset + 1) offset })

/-- `Session._add_state_at(offset)`: clone the immediately preceding state
(*without* requiring a node tree) and splice the offset in after it. -/
def Session.addStateAt (s : Session) (offset : XTime) : StateM × Session :=
  match s.findStateBefore offset false with
  | none => ({ offset := offset }, s)
  | some old =>
    let st := old.clone offset
    (st,
      { s with
        states := updateAssoc s.states offset st
        offsets := s.offsets.insertIdx (s.offsets.indexOf old.offset + 1) offset })

/-- The error surfaced by `Session.at` on a negative offset: the spec's
`InvalidOffset` (realised in the code as the failed `assert 0 <= offset`). -/
inductive SessionError
  | invalidOffset
  deriving DecidableEq, Repr

/-- `Session.at(offset)`: reject negative offsets; reuse the state stored at
the offset, else materialise one via `_add_state_at`.  The returned `Session`
is the post-call session (unchanged whenever no new state was added). -/
def Session.at (s : Session) (offset : ℚ) : Except SessionError StateM × Session :=
  if offset < 0 then (Except.error SessionError.invalidOffset, s)
  else
    let x := xfin offset
    match s.lookupState x with
    | some st => (Except.ok st, s)
    | none =>
      let (st, s') := s.addStateAt x
      (Except.ok st, s')

/-! ### Id mapping builder (`Session._build_id_mapping*`) -/

/-- One buffer's contribution to the buffer id mapping: skip an
already-mapped buffer; map a lone buffer to its own session id; map a grouped
buffer's group to the first member's session id and every member to its own
session id. -/
def bufferIdStep (m : IdMap) (b : BufferM) : IdMap :=
  if (lookupAssoc m (Entity.buffer b.sessionId)).isSome then m
  else
    match b.bufferGroup with
    | none => updateAssoc m (Entity.buffer b.sessionId) b.sessionId
    | some (gid, members) =>
      members.foldl (fun m sid => updateAssoc m (Entity.buffer sid) sid)
        (updateAssoc m (Entity.bufferGroup gid) (members.headD 0))

/-- `Session._build_id_mapping_for_buffers`. -/
def buildIdMappingForBuffers (s : Session) : IdMap :=
  s.buffers.foldl bufferIdStep []

/-- Modelled from the spec: the block allocator hands out contiguous integer
ranges starting at its heap minimum.  Only allocation is exercised by the id
mapping builder (nothing is freed during a build). -/
structure BlockAllocator where
  position : ℕ
  deriving DecidableEq, Repr

/-- Allocate a contiguous block, returning its first id. -/
def BlockAllocator.allocate (a : BlockAllocator) (size : ℕ) : ℕ × BlockAllocator :=
  (a.position, ⟨a.position + size⟩)

/-- Pick the allocator for a calculation rate, allocate, and return both
allocators (`allocators[bus.calculation_rate].allocate(...)`). -/
def allocFor :
    CalcRate → BlockAllocator → BlockAllocator → ℕ → ℕ × BlockAllocator × BlockAllocator
  | CalcRate.audio, a, c, n => let (i, a') := a.allocate n; (i, a', c)
  | CalcRate.control, a, c, n => let (i, c') := c.allocate n; (i, a, c')

/-- One bus's contribution to the bus id mapping: skip a bus that is mapped
or whose group is mapped; allocate one id for a lone bus; for a grouped bus
allocate a block, map the group to its base, then run the faithful port of
the source's inner loop, which repeatedly assigns to the *same* key `bus`
(the outer loop variable). -/
def busIdStep (acc : IdMap × BlockAllocator × BlockAllocator) (bus : BusM) :
    IdMap × BlockAllocator × BlockAllocator :=
  let (m, audioAlloc, controlAlloc) := acc
  if ((lookupAssoc m (Entity.bus bus.sessionId)).isSome
      || (match bus.busGroup with
          | some (gid, _) => (lookupAssoc m (Entity.busGroup gid)).isSome
          | none => false)) then acc
  else
    match bus.busGroup with
    | none =>
      let (i, a', c') := allocFor bus.rate audioAlloc controlAlloc 1
      (updateAssoc m (Entity.bus bus.sessionId) i, a', c')
    | some (gid, width) =>
      let (blockId, a', c') := allocFor bus.rate audioAlloc controlAlloc width
      let m := updateAssoc m (Entity.busGroup gid) blockId
      let m :=
        (List.range width).foldl
          (fun m k => updateAssoc m (Entity.bus bus.sessionId) (blockId + k)) m
      (m, a', c')

/-- `Session._build_id_mapping_for_buses`.  Hardware output buses occupy
`0 .. output_count - 1` and input buses `output_count .. output_count +
input_count - 1`; the audio-rate allocator starts at `input_count +
output_count`, the control-rate allocator at 0.  The per-group inner loop is
the faithful port of the source's `for bus_id in range(block_id, block_id +
len(bus.bus_group)): mapping[bus] = bus_id`, which repeatedly assigns to the
*same* key `bus` (the outer loop variable). -/
def buildIdMappingForBuses (s : Session) : IdMap :=
  let firstPrivate := s.inputCount + s.outputCount
  let m : IdMap := []
  let m :=
    if s.outputCount ≠ 0 then
      (List.range s.outputCount).foldl
        (fun m i => updateAssoc m (Entity.hardwareOutBus i) i)
        (updateAssoc m Entity.audioOutputBusGroup 0)
    else m
  let m :=
    if s.inputCount ≠ 0 then
      (List.range s.inputCount).foldl
        (fun m i => updateAssoc m (Entity.hardwareInBus i) (s.outputCount + i))
        (updateAssoc m Entity.audioInputBusGroup s.outputCount)
    else m
  (s.buses.foldl busIdStep (m, ⟨firstPrivate⟩, ⟨0⟩)).1

/-- Sort nodes by logical session id (`sorted(..., key=lambda x: x.session_id)`,
a stable ascending sort). -/
def sortNodesBySessionId (l : List Node) : List Node :=
  l.insertionSort (fun a b => a.sessionId ≤ b.sessionId)

/-- One node's contribution to the node id mapping: assign the allocator id,
then immediately overwrite it with the node's logical session id, and advance
the allocator. -/
def nodeIdStep (p : IdMap × ℕ) (n : Node) : IdMap × ℕ :=
  let m := updateAssoc p.1 n.entity p.2
  let m := updateAssoc m n.entity n.sessionId
  (m, p.2 + 1)

/-- One offset's contribution to the node id mapping: its state's start
nodes in ascending session-id order (`states[offset]` raising in Python for a
missing state; the model skips). -/
def nodeIdOffsetStep (s : Session) (acc : IdMap × ℕ) (off : XTime) : IdMap × ℕ :=
  match s.lookupState off with
  | none => acc
  | some st => (sortNodesBySessionId st.startNodes).foldl nodeIdStep acc

/-- `Session._build_id_mapping_for_nodes`: the root maps to 0; every start
node of every non-initial state, visited in offset order and by ascending
session id within an offset, is first assigned a fresh allocator id and then
immediately overwritten with its own logical session id.  (The
`NodeIdAllocator` is modelled from the spec as a counter from 1000.) -/
def buildIdMappingForNodes (s : Session) : IdMap :=
  ((s.offsets.drop 1).foldl (nodeIdOffsetStep s) ([(Entity.root, 0)], 1000)).1

/-- `Session._build_id_mapping`: merge the buffer, bus, and node mappings. -/
def buildIdMapping (s : Session) : IdMap :=
  updateAll
    (updateAll (updateAll [] (buildIdMappingForBuffers s)) (buildIdMappingForBuses s))
    (buildIdMappingForNodes s)

end NRT

namespace NRT

/-! ### Request compiler (`Session._collect_*`) -/

/-- The open/closed flags threaded through a compilation
(`buffer_open_states`, keyed by mapped buffer id). -/
abbrev BufferOpenStates : Type := List (ℕ × Bool)

/-- `buffer_settings`: offset → original event type → compiled requests. -/
abbrev BufferSettings : Type := List (XTime × List (BufOp × List Request))

/-- `bus_settings`: offset → mapped bus id → value. -/
abbrev BusSettings : Type := List (XTime × List (ℕ × ℚ))

/-- `Session._ordered_buffer_post_alloc_request_types`. -/
def orderedBufferPostAllocRequestTypes : List BufOp :=
  [BufOp.read, BufOp.readChannel, BufOp.zero, BufOp.fill, BufOp.generate,
    BufOp.setB, BufOp.setContiguous, BufOp.normalize, BufOp.copy]

/-- `Session._ordered_buffer_pre_free_request_types`. -/
def orderedBufferPreFreeRequestTypes : List BufOp :=
  [BufOp.write]

/-- The buffer id carried by a read/read-channel/write request
(`request.buffer_id`; `0` for requests that carry none). -/
def Request.reqBufferId : Request → ℕ
  | Request.bufferRead bid _ => bid
  | Request.bufferReadChannel bid _ _ => bid
  | Request.bufferWrite bid _ => bid
  | _ => 0

/-- The `leave_open` flag of a read/read-channel/write request. -/
def Request.reqLeaveOpen : Request → Bool
  | Request.bufferRead _ lo => lo
  | Request.bufferReadChannel _ lo _ => lo
  | Request.bufferWrite _ lo => lo
  | _ => false

/-- Sort buffers by logical session id (stable ascending). -/
def sortBuffersBySessionId (l : List BufferM) : List BufferM :=
  l.insertionSort (fun a b => a.sessionId ≤ b.sessionId)

/-- `Session._collect_bus_set_requests`: one indexed control-bus set request
per offset with pending bus values, pairs sorted ascending. -/
def collectBusSetRequests (busSettings : BusSettings) (offset : XTime) : List Request :=
  match lookupAssoc busSettings offset with
  | none => []
  | some pairs =>
    [Request.controlBusSet
      (pairs.insertionSort (fun a b => a.1 < b.1 ∨ (a.1 = b.1 ∧ a.2 ≤ b.2)))]

/-- `Session._collect_buffer_allocate_requests`: allocate (or allocate+read,
or allocate+read-channels) each starting buffer in ascending session-id order
and mark it closed in `buffer_open_states`. -/
def collectBufferAllocateRequests (bos : BufferOpenStates) (idMap : IdMap)
    (startBuffers : List BufferM) : List Request × BufferOpenStates :=
  (sortBuffersBySessionId startBuffers).foldl
    (fun (acc : List Request × BufferOpenStates) b =>
      let bid := lookupId idMap (Entity.buffer b.sessionId)
      let req : Request :=
        match b.filePath with
        | some fp =>
          match b.channelCount with
          | BufChannels.count n => Request.bufferAllocateReadChannel bid fp (List.range n)
          | BufChannels.indices l => Request.bufferAllocateReadChannel bid fp l
          | BufChannels.unspecified => Request.bufferAllocateRead bid fp
        | none =>
          let fc := match b.frameCount with
            | some n => if n = 0 then 1 else n
            | none => 1
          let cc := match b.channelCount with
            | BufChannels.count n => if n = 0 then 1 else n
            | _ => 1
          Request.bufferAllocate bid fc cc
      (acc.1 ++ [req], updateAssoc acc.2 bid false))
    ([], bos)

/-- `Session._collect_buffer_free_requests`: for each stopping buffer in
ascending session-id order, close it first if it is currently open, then free
it, dropping its open-state entry. -/
def collectBufferFreeRequests (bos : BufferOpenStates) (idMap : IdMap)
    (stopBuffers : List BufferM) : List Request × BufferOpenStates :=
  (sortBuffersBySessionId stopBuffers).foldl
    (fun (acc : List Request × BufferOpenStates) b =>
      let bid := lookupId idMap (Entity.buffer b.sessionId)
      let closeReqs := if (lookupAssoc acc.2 bid).getD false then [Request.bufferClose bid] else []
      (acc.1 ++ closeReqs ++ [Request.bufferFree bid], removeAssoc acc.2 bid))
    ([], bos)

/-- The per-request inner step of `_collect_buffer_nonlifecycle_requests`
for reads/read-channels/writes: emit a close first whenever the buffer is
currently open, then the request, recording its `leave_open` flag. -/
def bufferOpenCloseStep (acc2 : List Request × BufferOpenStates) (r : Request) :
    List Request × BufferOpenStates :=
  let bid := r.reqBufferId
  let isOpen := (lookupAssoc acc2.2 bid).getD false
  (acc2.1 ++ (if isOpen then [Request.bufferClose bid] else []) ++ [r],
    updateAssoc acc2.2 bid r.reqLeaveOpen)

/-- The per-request-type outer step of
`_collect_buffer_nonlifecycle_requests`. -/
def bufferNonlifecycleStep (settings : List (BufOp × List Request))
    (acc : List Request × BufferOpenStates) (rt : BufOp) :
    List Request × BufferOpenStates :=
  match lookupAssoc settings rt with
  | none => acc
  | some [] => acc
  | some brs =>
    if rt = BufOp.read ∨ rt = BufOp.readChannel ∨ rt = BufOp.write then
      brs.foldl bufferOpenCloseStep acc
    else (acc.1 ++ brs, acc.2)

/-- `Session._collect_buffer_nonlifecycle_requests`: walk the given request
types in order; for reads/read-channels/writes, emit a close first whenever
the buffer is currently open and record the request's `leave_open` flag. -/
def collectBufferNonlifecycleRequests (bos : BufferOpenStates)
    (bufferSettings : BufferSettings) (offset : XTime) (requestTypes : List BufOp) :
    List Request × BufferOpenStates :=
  match lookupAssoc bufferSettings offset with
  | none => ([], bos)
  | some settings =>
    requestTypes.foldl (bufferNonlifecycleStep settings) ([], bos)

/-- File a compiled request under an offset and its *original* event type in
the nested `buffer_settings` dict. -/
def appendNestedBufferSetting (bs : BufferSettings) (off : XTime) (op : BufOp)
    (r : Request) : BufferSettings :=
  match lookupAssoc bs off with
  | none => bs ++ [(off, [(op, [r])])]
  | some inner =>
    let inner' :=
      match lookupAssoc inner op with
      | none => inner ++ [(op, [r])]
      | some rs => updateAssoc inner op (rs ++ [r])
    updateAssoc bs off inner'

/-- Compile one recorded buffer event into its request (a read with explicit
channel indices becomes a read-channels request). -/
def compileBufferEvent (bid : ℕ) (ev : BufEvent) : Request :=
  match ev.op with
  | BufOp.read =>
    match ev.channelIndices with
    | some l => Request.bufferReadChannel bid ev.leaveOpen l
    | none => Request.bufferRead bid ev.leaveOpen
  | BufOp.readChannel => Request.bufferReadChannel bid ev.leaveOpen (ev.channelIndices.getD [])
  | BufOp.zero => Request.bufferZero bid
  | BufOp.fill => Request.bufferFill bid
  | BufOp.generate => Request.bufferGenerate bid
  | BufOp.setB => Request.bufferSet bid
  | BufOp.setContiguous => Request.bufferSetContiguous bid
  | BufOp.normalize => Request.bufferNormalize bid
  | BufOp.copy => Request.bufferCopy bid
  | BufOp.write => Request.bufferWrite bid ev.leaveOpen

/-- `Session._collect_buffer_settings`: walk the buffers in ascending mapped
id, compile each recorded event into a request (a read event with explicit
channel indices compiles to a read-channels request), and file it under the
event's offset and *original* event type.  (The `Buffer` class that records
events is absent from the snapshot; events are modelled from the spec.) -/
def collectBufferSettings (s : Session) (idMap : IdMap) : BufferSettings :=
  (s.buffers.insertionSort
      (fun a b =>
        lookupId idMap (Entity.buffer a.sessionId) ≤ lookupId idMap (Entity.buffer b.sessionId))).foldl
    (fun bs b =>
      let bid := lookupId idMap (Entity.buffer b.sessionId)
      b.events.foldl
        (fun bs ev => appendNestedBufferSetting bs ev.offset ev.op (compileBufferEvent bid ev))
        bs)
    []

/-- `Session._collect_bus_settings`: control-rate bus automation events,
grouped by offset, later writes to the same (offset, bus) winning. -/
def collectBusSettings (s : Session) (idMap : IdMap) : BusSettings :=
  s.buses.foldl
    (fun bs bus =>
      if bus.rate ≠ CalcRate.control then bs
      else
        let bid := lookupId idMap (Entity.bus bus.sessionId)
        bus.events.foldl
          (fun bs ev =>
            match lookupAssoc bs ev.1 with
            | none => bs ++ [(ev.1, [(bid, ev.2)])]
            | some inner => updateAssoc bs ev.1 (updateAssoc inner bid ev.2))
          bs)
    []

/-- Does a node's interval intersect an offset (`start ≤ offset < stop`)?
Modelled from the spec: the interval index answers "all intervals overlapping
a point". -/
def Node.intersects (n : Node) (x : XTime) : Bool :=
  decide (xfin n.startOffset ≤ x) && decide (x < n.stopOffset)

/-- Buffer-interval intersection, as for nodes. -/
def BufferM.intersects (b : BufferM) (x : XTime) : Bool :=
  decide (xfin b.startOffset ≤ x) && decide (x < b.stopOffset)

/-- The six object collections returned by `Session._collect_durated_objects`. -/
structure DuratedObjects where
  allBuffers : List BufferM
  allNodes : List Node
  startBuffers : List BufferM
  startNodes : List Node
  stopBuffers : List BufferM
  stopNodes : List Node

/-- `Session._collect_durated_objects(offset, is_last_offset)`: read (cloning
if missing) the state at the offset; at the final offset the overlap sets are
folded into the stop sets. -/
def Session.collectDuratedObjects (s : Session) (offset : XTime) (isLast : Bool) :
    DuratedObjects × Session :=
  let (state, s') := s.findStateAtClone offset
  let stopBuffers :=
    if isLast then listUnion state.stopBuffers state.overlapBuffers else state.stopBuffers
  let stopNodes :=
    if isLast then listUnion state.stopNodes state.overlapNodes else state.stopNodes
  let allBuffers := listUnion (s'.buffers.filter (fun b => b.intersects offset)) stopBuffers
  let allNodes := listUnion (s'.nodes.filter (fun n => n.intersects offset)) stopNodes
  (⟨allBuffers, allNodes, state.startBuffers, state.startNodes, stopBuffers, stopNodes⟩, s')

/-- `Session._collect_synthdef_requests`: definition-receive requests for the
not-yet-seen synthdefs of the starting synths, sorted by content-hash name. -/
def collectSynthdefRequests (startNodes : List Node) (visited : List SynthDefM) :
    List Request × List SynthDefM :=
  let step :=
    startNodes.foldl
      (fun (acc : List SynthDefM × List SynthDefM) n =>
        match n.kind with
        | NodeKind.synth sd _ =>
          if acc.2.contains sd then acc else (acc.1 ++ [sd], acc.2 ++ [sd])
        | NodeKind.group => acc)
      ([], visited)
  ((step.1.insertionSort (fun a b => a.name ≤ b.name)).map
      (fun sd => Request.synthdefReceive sd.name),
    step.2)

/-- Children of a node in a state's tree (`nodes_to_children[node]`,
`None`/missing meaning a leaf). -/
def childrenOf (tree : List (Node × List Node)) (n : Node) : List Node :=
  (lookupAssoc tree n).getD []

/-- Modelled from the spec: `State._iterate_nodes(root, nodes_to_children)` —
depth-first traversal of the resolved tree, a node before its children.  The
fuel argument bounds the depth (the tree's key count suffices for acyclic
trees, which resolved shapes are). -/
def iterateNodes (tree : List (Node × List Node)) : ℕ → Node → List Node
  | 0, n => [n]
  | fuel + 1, n => n :: (childrenOf tree n).flatMap (iterateNodes tree fuel)

/-- Modelled from the spec: `node._collect_settings(offset, persistent=False)`
— the parameters of the node that have an automation breakpoint exactly at
this offset (breakpoints are relative to the node's start). -/
def Node.collectSettingsAt (n : Node) (offset : XTime) : List (String × Value) :=
  match offset with
  | (some (some q) : WithBot (WithTop ℚ)) =>
    let rel := q - n.startOffset
    n.events.foldl
      (fun acc p =>
        match p.2.find? (fun e => e.1 = rel) with
        | some e => acc ++ [(p.1, e.2)]
        | none => acc)
      []
  | _ => []

/-- `Session._collect_node_settings`: iterate the state's tree (or, for a
sparse state, the previous tree-bearing state's tree) in depth-first order
and gather each node's settings pending at this offset. -/
def Session.collectNodeSettings (s : Session) (offset : XTime) (state : StateM)
    (idMap : IdMap) : List (Node × List (String × Value)) :=
  let treeOpt :=
    match state.nodesToChildren with
    | some t => some t
    | none =>
      match s.findStateBefore offset true with
      | some prev => prev.nodesToChildren
      | none => none
  match treeOpt with
  | none => []
  | some t =>
    (iterateNodes t (t.length + 1) rootNode).foldl
      (fun acc n =>
        let settings := n.collectSettingsAt offset
        if settings.isEmpty then acc else acc ++ [(n, settings)])
      []

/-- The duration injected into a starting synth whose definition declares a
`duration` parameter: the node's own duration, truncated at the render
duration (`duration - start_offset` when the node outlives the render). -/
def injectedDuration (duration : ℚ) (n : Node) : ℚ :=
  if xfin duration < n.stopOffset then duration - n.startOffset
  else
    match n.stopOffset with
    | (some (some q) : WithBot (WithTop ℚ)) => q - n.startOffset
    | _ => 0

/-- `Session._collect_node_action_requests`: each recorded transition becomes
a synth-new request (for a starting synth, with its keyword arguments merged
with — and removing — its pending settings, plus an injected duration), a
group-new request (starting group), or a node-move request (existing node).
The request shapes are modelled from the spec (`Node._to_request` and
`NodeTransition._to_request` are absent from the snapshot). -/
def collectNodeActionRequests (duration : ℚ) (idMap : IdMap)
    (transitions : List Transition)
    (nodeSettings : List (Node × List (String × Value))) (startNodes : List Node) :
    List Request × List (Node × List (String × Value)) :=
  transitions.foldl
    (fun (acc : List Request × List (Node × List (String × Value))) tr =>
      if startNodes.contains tr.source then
        match tr.source.kind with
        | NodeKind.synth sd kwargs =>
          let popped :=
            match lookupAssoc acc.2 tr.source with
            | some st => (st, removeAssoc acc.2 tr.source)
            | none => ([], acc.2)
          let kw := updateAll kwargs popped.1
          let kw :=
            if sd.parameterNames.contains "duration" then
              updateAssoc kw "duration" (Value.num (injectedDuration duration tr.source))
            else kw
          (acc.1 ++ [Request.synthNew sd.name (lookupId idMap tr.source.entity)
              tr.addAction (lookupId idMap tr.target.entity) kw],
            popped.2)
        | NodeKind.group =>
          (acc.1 ++ [Request.groupNew (lookupId idMap tr.source.entity)
              tr.addAction (lookupId idMap tr.target.entity)],
            acc.2)
      else
        (acc.1 ++ [Request.nodeMove (lookupId idMap tr.source.entity)
            tr.addAction (lookupId idMap tr.target.entity)],
          acc.2))
    ([], nodeSettings)

/-- The classification loop of `Session._collect_node_free_requests`: walk
the stopping nodes, putting gated synths' ids into the gate list and other
nodes with truthy duration into the free list (in iteration order; both lists
are sorted afterwards). -/
def classifyStopNodes (idMap : IdMap) : List Node → List ℕ × List ℕ
  | [] => ([], [])
  | n :: rest =>
    let nid := lookupId idMap n.entity
    let r := classifyStopNodes idMap rest
    if n.hasSynthdef && n.hasGate then (r.1, nid :: r.2)
    else if n.durationIsTruthy then (nid :: r.1, r.2)
    else r

/-- `Session._collect_node_free_requests`: stopping nodes whose synthdef
declares a `gate` parameter are gated off, other stopping nodes with truthy
duration are hard-freed; free ids are batched into one request, gate-offs are
one request per node, both id lists sorted ascending. -/
def collectNodeFreeRequests (idMap : IdMap) (stopNodes : List Node) : List Request :=
  if stopNodes.isEmpty then []
  else
    let classified := classifyStopNodes idMap stopNodes
    let freeIds := classified.1.insertionSort (fun a b => a ≤ b)
    let gateIds := classified.2.insertionSort (fun a b => a ≤ b)
    (if freeIds.isEmpty then [] else [Request.nodeFree freeIds]) ++
      gateIds.map (fun nid => Request.nodeSet nid [("gate", 0)])

/-- `Session._collect_node_set_requests`: per node, split its remaining
settings into plain values (including mapped buffer references), audio-bus
mappings, and control-bus mappings (`None` mapping to `-1`), skipping
scalar-rate parameters; emit up to three requests per node. -/
def collectNodeSetRequests (idMap : IdMap)
    (nodeSettings : List (Node × List (String × Value))) : List Request :=
  nodeSettings.foldl
    (fun reqs p =>
      let params :=
        match p.1.kind with
        | NodeKind.synth sd _ => sd.params
        | NodeKind.group => []
      let nid := lookupId idMap p.1.entity
      let classified :=
        p.2.foldl
          (fun (acc : List (String × ℚ) × List (String × ℕ) × List (String × ℤ)) kv =>
            if (params.find? (fun q => q.1 = kv.1)).any (fun q => q.2.1 = ParamRate.scalar) then
              acc
            else
              match kv.2 with
              | Value.nil => (acc.1, acc.2.1, acc.2.2 ++ [(kv.1, (-1 : ℤ))])
              | Value.busRef rate ent =>
                if rate = CalcRate.control then
                  (acc.1, acc.2.1, acc.2.2 ++ [(kv.1, (lookupId idMap ent : ℤ))])
                else (acc.1, acc.2.1 ++ [(kv.1, lookupId idMap ent)], acc.2.2)
              | Value.bufRef ent => (acc.1 ++ [(kv.1, (lookupId idMap ent : ℚ))], acc.2.1, acc.2.2)
              | Value.num q => (acc.1 ++ [(kv.1, q)], acc.2.1, acc.2.2))
          ([], [], [])
      reqs ++ (if classified.1.isEmpty then [] else [Request.nodeSet nid classified.1])
        ++ (if classified.2.1.isEmpty then [] else [Request.nodeMapToAudioBus nid classified.2.1])
        ++ (if classified.2.2.isEmpty then [] else [Request.nodeMapToControlBus nid classified.2.2]))
    []

/-- The per-compilation static inputs of the request compiler. -/
structure CompileEnv where
  bufferSettings : BufferSettings
  busSettings : BusSettings
  duration : ℚ
  idMap : IdMap

/-- `Session._collect_requests_at_offset`: the nine collector categories
concatenated in their fixed order, threading the session (a state may be
cloned in), the buffer open-states, and the visited synthdefs. -/
def Session.collectRequestsAtOffset (s : Session) (env : CompileEnv)
    (bos : BufferOpenStates) (isLast : Bool) (offset : XTime)
    (visited : List SynthDefM) :
    List Request × Session × BufferOpenStates × List SynthDefM :=
  let dobS := s.collectDuratedObjects offset isLast
  let dob := dobS.1
  let stateS := dobS.2.findStateAtClone offset
  let state := stateS.1
  let s2 := stateS.2
  let nodeSettings := s2.collectNodeSettings offset state env.idMap
  let synthdefStep := collectSynthdefRequests dob.startNodes visited
  let allocStep := collectBufferAllocateRequests bos env.idMap dob.startBuffers
  let postStep := collectBufferNonlifecycleRequests allocStep.2 env.bufferSettings offset
    orderedBufferPostAllocRequestTypes
  let actionStep := collectNodeActionRequests env.duration env.idMap state.transitions
    nodeSettings dob.startNodes
  let busReqs := collectBusSetRequests env.busSettings offset
  let setReqs := collectNodeSetRequests env.idMap actionStep.2
  let freeReqs := collectNodeFreeRequests env.idMap dob.stopNodes
  let preFreeStep := collectBufferNonlifecycleRequests postStep.2 env.bufferSettings offset
    orderedBufferPreFreeRequestTypes
  let bufFreeStep := collectBufferFreeRequests preFreeStep.2 env.idMap dob.stopBuffers
  (synthdefStep.1 ++ allocStep.1 ++ postStep.1 ++ actionStep.1 ++ busReqs ++ setReqs
      ++ freeReqs ++ preFreeStep.1 ++ bufFreeStep.1,
    s2, bufFreeStep.2, synthdefStep.2)

/-- The `Session.duration` property: the largest finite offset (clamped at 0),
plus the configured padding when both are non-zero. -/
def Session.sessionDuration (s : Session) : ℚ :=
  let d : XTime :=
    match s.offsets.reverse.find? (fun o => decide (o < (⊤ : XTime))) with
    | some o => o
    | none => s.offsets.headD (xfin 0)
  let q := if d < xfin 0 then (0 : ℚ) else d.toRatD 0
  match s.padding with
  | some p => if 0 < q ∧ ¬ p = 0 then q + p else q
  | none => q

/-- The main loop of `Session._to_non_xrefd_request_bundles`: visit the
offsets in order, bundle any requests at an offset (the final offset always
bundles, as the sentinel is appended there), and stop after the duration
offset. -/
def bundleLoop (env : CompileEnv) :
    Session → BufferOpenStates → List SynthDefM → List XTime → List Bundle × Session
  | s, _, _, [] => ([], s)
  | s, bos, visited, offset :: rest =>
    let isLast := offset = xfin env.duration
    let step := s.collectRequestsAtOffset env bos isLast offset visited
    let reqs := step.1 ++ (if isLast then [Request.nothing] else [])
    let bundle : List Bundle :=
      if reqs.isEmpty then [] else [⟨offset.toRatD 0, reqs⟩]
    if isLast then (bundle, step.2.1)
    else
      let more := bundleLoop env step.2.1 step.2.2.1 step.2.2.2 rest
      (bundle ++ more.1, more.2)

/-- `Session._to_non_xrefd_request_bundles(duration)`: build the id mapping,
resolve the render duration (`duration or self.duration`, with Python's `or`
treating `0` as missing), extend the non-initial offsets with the duration if
absent, precompute the buffer and bus settings, and run the bundle loop.
(The source's assert for infinite self-durations cannot fire in the model,
where `sessionDuration` is always a rational.) -/
def Session.toBundles (s : Session) (durationArg : Option ℚ) : List Bundle × Session :=
  let idMap := buildIdMapping s
  let duration : ℚ :=
    match durationArg with
    | some d => if d = 0 then s.sessionDuration else d
    | none => s.sessionDuration
  let offs := s.offsets.drop 1
  let offs :=
    if offs.contains (xfin duration) then offs
    else (offs ++ [xfin duration]).insertionSort (fun a b => a ≤ b)
  let env : CompileEnv :=
    { bufferSettings := collectBufferSettings s idMap
      busSettings := collectBusSettings s idMap
      duration := duration
      idMap := idMap }
  bundleLoop env s [] [] offs

end NRT

namespace NRT

/-- `Session.__init__` / `Session._setup_initial_states`: a fresh session has
states at `-inf` (root tree `{root: None}`) and `0.0` (its clone), in that
offset order. -/
def initialSession (inputCount outputCount : ℕ) : Session :=
  let st0 : StateM :=
    { offset := ⊥
      nodesToChildren := some [(rootNode, [])] }
  let st1 := st0.clone (xfin 0)
  { inputCount := inputCount
    outputCount := outputCount
    offsets := [⊥, xfin 0]
    states := [(⊥, st0), (xfin 0, st1)] }

end NRT


namespace NRT

/-! ### Association-list lemmas -/

section AssocLemmas

variable {α β : Type} [DecidableEq α]

theorem lookupAssoc_cons (p : α × β) (l : List (α × β)) (k : α) :
    lookupAssoc (p :: l) k = if p.1 = k then some p.2 else lookupAssoc l k := by
  by_cases h : p.1 = k <;> simp [lookupAssoc, List.find?_cons, h]

theorem lookupAssoc_append (l l' : List (α × β)) (k : α) :
    lookupAssoc (l ++ l') k = (lookupAssoc l k).or (lookupAssoc l' k) := by
  induction l with
  | nil => simp [lookupAssoc]
  | cons p l ih =>
    by_cases h : p.1 = k <;> simp [lookupAssoc_cons, h, ih]

theorem lookupAssoc_eq_none_of_keys_ne {l : List (α × β)} {k : α}
    (h : ∀ p ∈ l, p.1 ≠ k) : lookupAssoc l k = none := by
  induction l with
  | nil => rfl
  | cons p l ih =>
    rw [lookupAssoc_cons, if_neg (h p (by simp))]
    exact ih (fun q hq => h q (by simp [hq]))

theorem updateAssoc_of_keys_ne {l : List (α × β)} {k : α} (v : β)
    (h : ∀ p ∈ l, p.1 ≠ k) : updateAssoc l k v = l ++ [(k, v)] := by
  unfold updateAssoc
  have hf : l.find? (fun p => p.1 = k) = none := by
    rw [List.find?_eq_none]
    intro p hp
    simp [h p hp]
  simp [hf]

theorem updateAssoc_cons (q : α × β) (l : List (α × β)) (k : α) (v : β) :
    updateAssoc (q :: l) k v =
      if q.1 = k then (k, v) :: l.map (fun p => if p.1 = k then (k, v) else p)
      else q :: updateAssoc l k v := by
  by_cases hq : q.1 = k
  · simp [updateAssoc, List.find?_cons, hq]
  · cases hf : l.find? (fun p => decide (p.1 = k)) with
    | none => simp [updateAssoc, List.find?_cons, hq, hf]
    | some p => simp [updateAssoc, List.find?_cons, hq, hf]

theorem lookupAssoc_map_update_ne {k' k : α} (l : List (α × β)) (v : β) (h : k' ≠ k) :
    lookupAssoc (l.map (fun p => if p.1 = k then (k, v) else p)) k' = lookupAssoc l k' := by
  induction l with
  | nil => rfl
  | cons q l ih =>
    by_cases hq : q.1 = k
    · rw [List.map_cons, if_pos hq]
      rw [lookupAssoc_cons, lookupAssoc_cons]
      rw [if_neg (by simp; exact fun hh => absurd hh.symm h), if_neg (by rw [hq]; exact fun hh => absurd hh.symm h)]
      exact ih
    · rw [List.map_cons, if_neg hq]
      rw [lookupAssoc_cons, lookupAssoc_cons]
      by_cases hq' : q.1 = k'
      · simp [hq']
      · rw [if_neg hq', if_neg hq']
        exact ih

theorem lookupAssoc_updateAssoc_self (l : List (α × β)) (k : α) (v : β) :
    lookupAssoc (updateAssoc l k v) k = some v := by
  induction l with
  | nil => simp [updateAssoc, lookupAssoc]
  | cons q l ih =>
    rw [updateAssoc_cons]
    by_cases hq : q.1 = k
    · rw [if_pos hq, lookupAssoc_cons]
      simp
    · rw [if_neg hq, lookupAssoc_cons, if_neg hq]
      exact ih

theorem lookupAssoc_updateAssoc_ne {k' k : α} (l : List (α × β)) (v : β)
    (h : k' ≠ k) : lookupAssoc (updateAssoc l k v) k' = lookupAssoc l k' := by
  induction l with
  | nil =>
    simp [updateAssoc, lookupAssoc]
    exact fun hh => absurd hh.symm h
  | cons q l ih =>
    rw [updateAssoc_cons]
    by_cases hq : q.1 = k
    · rw [if_pos hq, lookupAssoc_cons, lookupAssoc_cons]
      rw [if_neg (by simp; exact fun hh => absurd hh.symm h)]
      rw [if_neg (by rw [hq]; exact fun hh => absurd hh.symm h)]
      exact lookupAssoc_map_update_ne l v h
    · rw [if_neg hq, lookupAssoc_cons, lookupAssoc_cons]
      by_cases hq' : q.1 = k'
      · simp [hq']
      · rw [if_neg hq', if_neg hq']
        exact ih

theorem updateAll_cons (m : List (α × β)) (p : α × β) (rest : List (α × β)) :
    updateAll m (p :: rest) = updateAll (updateAssoc m p.1 p.2) rest := rfl

theorem lookupAssoc_updateAll_of_keys_ne {m' : List (α × β)} {k : α}
    (h : ∀ p ∈ m', p.1 ≠ k) (m : List (α × β)) :
    lookupAssoc (updateAll m m') k = lookupAssoc m k := by
  induction m' generalizing m with
  | nil => rfl
  | cons p rest ih =>
    rw [updateAll_cons, ih (fun q hq => h q (by simp [hq]))]
    exact lookupAssoc_updateAssoc_ne _ _ (fun hh => (h p (by simp)) hh.symm)

theorem lookupAssoc_updateAll_some {m' : List (α × β)} {k : α} {v : β}
    (hall : ∀ p ∈ m', p.1 = k → p.2 = v) (m : List (α × β))
    (hbase : lookupAssoc m k = some v ∨ ∃ p ∈ m', p.1 = k) :
    lookupAssoc (updateAll m m') k = some v := by
  induction m' generalizing m with
  | nil =>
    rcases hbase with hb | ⟨p, hp, _⟩
    · exact hb
    · simp at hp
  | cons p rest ih =>
    rw [updateAll_cons]
    by_cases hp : p.1 = k
    · refine ih (fun q hq hqk => hall q (by simp [hq]) hqk) _ (Or.inl ?_)
      have : p.2 = v := hall p (by simp) hp
      rw [← hp, this]
      exact lookupAssoc_updateAssoc_self m p.1 v
    · rcases hbase with hb | ⟨q, hq, hqk⟩
      · refine ih (fun q hq hqk => hall q (by simp [hq]) hqk) _ (Or.inl ?_)
        rw [lookupAssoc_updateAssoc_ne _ _ (fun hh => hp hh.symm)]
        exact hb
      · rcases List.mem_cons.mp hq with rfl | hq'
        · exact absurd hqk hp
        · exact ih (fun r hr hrk => hall r (by simp [hr]) hrk) _ (Or.inr ⟨q, hq', hqk⟩)

theorem keys_updateAssoc_of_absent {l : List (α × β)} {k : α} (v : β)
    (h : ∀ p ∈ l, p.1 ≠ k) :
    (updateAssoc l k v).map Prod.fst = l.map Prod.fst ++ [k] := by
  rw [updateAssoc_of_keys_ne v h]
  simp

end AssocLemmas

end NRT

namespace NRT

/-! ### Sorted offset-list lemmas -/

theorem takeWhile_append_all {α : Type} {p : α → Bool} {A B : List α}
    (hA : ∀ a ∈ A, p a) (hB : ∀ b ∈ B, ¬ p b) :
    (A ++ B).takeWhile p = A ∧ (A ++ B).dropWhile p = B := by
  induction A with
  | nil =>
    cases B with
    | nil => simp
    | cons b B' =>
      have := hB b (by simp)
      simp [List.takeWhile_cons, List.dropWhile_cons, this]
  | cons a A ih =>
    have ha := hA a (by simp)
    have := ih (fun a' ha' => hA a' (by simp [ha'])) 
    simp [List.takeWhile_cons, List.dropWhile_cons, ha, this.1, this.2]

theorem insertIdx_append_length {α : Type} (C D : List α) (x : α) :
    (C ++ D).insertIdx C.length x = C ++ x :: D := by
  induction C with
  | nil => rfl
  | cons c C ih => simp [List.insertIdx_succ_cons, ih]

theorem getD_append_head {α : Type} (A : List α) (b : α) (B : List α) (d : α) :
    (A ++ b :: B).getD A.length d = b := by
  induction A with
  | nil => rfl
  | cons a A ih => simpa using ih

theorem dropWhile_ge_of_sorted {l : List XTime} {x : XTime} (hs : l.Sorted (· < ·)) :
    ∀ b ∈ l.dropWhile (fun o => decide (o < x)), x ≤ b := by
  induction l with
  | nil => simp
  | cons a l ih =>
    rcases List.sorted_cons.mp hs with ⟨ha, hl⟩
    by_cases h : a < x
    · simpa [List.dropWhile_cons, h] using ih hl
    · intro b hb
      rw [List.dropWhile_cons, if_neg (by simp [h])] at hb
      rcases List.mem_cons.mp hb with rfl | hb'
      · exact not_lt.mp h
      · exact le_trans (not_lt.mp h) (le_of_lt (ha b hb'))

theorem dropWhile_gt_of_sorted {l : List XTime} {x : XTime} (hs : l.Sorted (· < ·))
    (hx : x ∉ l) : ∀ b ∈ l.dropWhile (fun o => decide (o < x)), x < b := by
  intro b hb
  have hle := dropWhile_ge_of_sorted hs b hb
  have hbl : b ∈ l := (List.dropWhile_sublist _).mem hb
  exact lt_of_le_of_ne hle (fun hxb => hx (hxb ▸ hbl))

theorem takeWhile_lt_of_sorted {l : List XTime} {x : XTime} :
    ∀ a ∈ l.takeWhile (fun o => decide (o < x)), a < x := by
  intro a ha
  simpa using List.mem_takeWhile_imp ha

/-- On a sorted offset list split as `A ++ B` with `A` strictly below `x`
(and nonempty) and `B` at or above `x`, `_find_state_before` locates the last
index of `A`. -/
theorem findStateBeforeIdx_spec {offsets : List XTime} {x : XTime} {A B : List XTime}
    (hAB : offsets = A ++ B) (hA : ∀ o ∈ A, o < x) (hB : ∀ b ∈ B, x ≤ b)
    (hAne : A ≠ []) :
    findStateBeforeIdx offsets x = some (A.length - 1) := by
  subst hAB
  have htw : (A ++ B).takeWhile (fun o => decide (o < x)) = A :=
    (takeWhile_append_all (fun a ha => by simp [hA a ha])
      (fun b hb => by simp [not_lt.mpr (hB b hb)])).1
  have hAlen : 1 ≤ A.length := by
    cases A with
    | nil => exact absurd rfl hAne
    | cons a A => simp
  cases B with
  | nil =>
    have hemp : ¬ ((A ++ ([] : List XTime)).isEmpty = true) := by
      simp; intro h1; rw [h1] at hAne; exact hAne rfl
    have hlenEq : ((A : List XTime).length : ℤ) = (((A ++ []) : List XTime).length : ℤ) := by
      simp
    have hgd : (A ++ ([] : List XTime))[((A.length : ℤ) - 1).toNat]?.getD ⊥ ∈ A := by
      have hlt : ((A.length : ℤ) - 1).toNat < (A ++ ([] : List XTime)).length := by
        simp; omega
      rw [List.getElem?_eq_getElem hlt]
      simpa using List.getElem_mem hlt
    have hold : ¬ (x ≤ (A ++ ([] : List XTime))[((A.length : ℤ) - 1).toNat]?.getD ⊥) :=
      not_le.mpr (hA _ hgd)
    simp only [findStateBeforeIdx, bisectLeftX, htw, List.getD_eq_getElem?_getD]
    rw [if_neg hemp, if_pos hlenEq, if_neg hold, if_neg (by omega)]
    congr 1
    omega
  | cons b B' =>
    have hemp : ¬ ((A ++ b :: B').isEmpty = true) := by simp
    have hlen : ¬ (((A : List XTime).length : ℤ) = ((A ++ b :: B').length : ℤ)) := by
      simp; omega
    have hgd : (A ++ b :: B')[((A.length : ℤ)).toNat]?.getD ⊥ = b := by
      have htn : ((A.length : ℤ)).toNat = A.length := by omega
      rw [htn, ← List.getD_eq_getElem?_getD]
      exact getD_append_head A b B' ⊥
    have hxb : x ≤ b := hB b (by simp)
    simp only [findStateBeforeIdx, bisectLeftX, htw, List.getD_eq_getElem?_getD]
    rw [if_neg hemp, if_neg hlen, hgd, if_pos hxb, if_neg (by omega)]
    congr 1
    omega

theorem walkBackWithTree_at {s : Session} {i : ℕ} {st : StateM}
    (h : s.lookupState (s.offsets.getD i ⊥) = some st)
    (ht : st.nodesToChildren.isSome) :
    s.walkBackWithTree i = some st := by
  rw [List.getD_eq_getElem?_getD] at h
  cases i <;> simp [Session.walkBackWithTree, List.getD_eq_getElem?_getD, h, ht]

/-- `_find_state_before(x, with_node_tree)` returns the state stored at the
greatest offset strictly below `x`, provided the offset list splits as
`A' ++ a :: B` with everything through `a` below `x` and `B` at or above it
(and, for the tree-seeking variant, that state has a tree). -/
theorem findStateBefore_spec {s : Session} {x : XTime} {A' B : List XTime} {a : XTime}
    {st : StateM} (hAB : s.offsets = A' ++ a :: B)
    (hA : ∀ o ∈ A' ++ [a], o < x) (hB : ∀ b ∈ B, x ≤ b)
    (hst : s.lookupState a = some st) (wt : Bool)
    (htree : wt = true → st.nodesToChildren.isSome = true) :
    s.findStateBefore x wt = some st := by
  have hsplit : s.offsets = (A' ++ [a]) ++ B := by simp [hAB]
  have hidx : findStateBeforeIdx s.offsets x = some ((A' ++ [a]).length - 1) :=
    findStateBeforeIdx_spec hsplit hA hB (by simp)
  have hlen : (A' ++ [a]).length - 1 = A'.length := by simp
  have hgd : s.offsets.getD A'.length ⊥ = a := by
    rw [hAB]; exact getD_append_head A' a B ⊥
  unfold Session.findStateBefore
  rw [hidx, hlen]
  cases wt with
  | false =>
    simp only [Bool.false_eq_true, if_false, hgd]
    exact hst
  | true =>
    simp only [if_true]
    exact walkBackWithTree_at (by rw [hgd]; exact hst) (htree rfl)

end NRT

namespace NRT

/-- Well-formedness of a session's timeline bookkeeping, as established by
`Session.__init__` and preserved by the mutation helpers: the offset list is
strictly sorted and starts at `-inf`, every listed offset stores a state, and
every stored state sits at its key, which is a listed offset, and carries a
node tree. -/
def SessionWF (s : Session) : Prop :=
  s.offsets.Sorted (· < ·)
  ∧ s.offsets.head? = some ⊥
  ∧ (∀ o ∈ s.offsets, (s.lookupState o).isSome = true)
  ∧ (∀ p ∈ s.states, p.1 ∈ s.offsets ∧ p.2.offset = p.1 ∧ p.2.nodesToChildren.isSome = true)

theorem SessionWF.lookup_props {s : Session} (wf : SessionWF s) {o : XTime} {st : StateM}
    (h : s.lookupState o = some st) :
    o ∈ s.offsets ∧ st.offset = o ∧ st.nodesToChildren.isSome = true := by
  unfold Session.lookupState lookupAssoc at h
  cases hf : s.states.find? (fun p => p.1 = o) with
  | none => rw [hf] at h; simp at h
  | some p =>
    rw [hf] at h
    simp at h
    have hmem := List.mem_of_find?_eq_some hf
    have hkey : p.1 = o := by simpa using List.find?_some hf
    have := wf.2.2.2 p hmem
    exact ⟨hkey ▸ this.1, by rw [← h, this.2.1, hkey], h ▸ this.2.2⟩

theorem lookupState_none_of_not_mem {s : Session} (wf : SessionWF s) {o : XTime}
    (h : o ∉ s.offsets) : s.lookupState o = none := by
  cases hl : s.lookupState o with
  | none => rfl
  | some st => exact absurd (wf.lookup_props hl).1 h

/-- C8: `Session.at` on a negative offset fails with `InvalidOffset` before
touching anything: the offset list and the offset-to-state mapping of the
returned session are exactly the originals. -/
theorem at_negative_offset_fails (s : Session) (x : ℚ) (h : x < 0) :
    s.at x = (Except.error SessionError.invalidOffset, s) := by
  unfold Session.at
  rw [if_pos h]

/-- Witness for C8: `at(-1)` on a fresh session errors and mutates nothing. -/
theorem at_negative_offset_fails_witness :
    (initialSession 0 0).at (-1) =
      (Except.error SessionError.invalidOffset, initialSession 0 0) :=
  at_negative_offset_fails (initialSession 0 0) (-1) (by norm_num)

/-- C10: `Session.at` is idempotent on existing non-negative offsets (no new
state, session unchanged); at a fresh non-negative offset it splices exactly
one new offset after its greatest strictly-smaller predecessor, keeping the
offset list sorted (hence duplicate-free) and adding exactly one state keyed
by the new offset. -/
theorem at_existing_noop_and_fresh_splices (s : Session) (wf : SessionWF s)
    (q : ℚ) (hq : 0 ≤ q) :
    (xfin q ∈ s.offsets → (s.at q).2 = s)
    ∧ (xfin q ∉ s.offsets →
        (s.at q).2.offsets =
          s.offsets.takeWhile (fun o => decide (o < xfin q)) ++
            xfin q :: s.offsets.dropWhile (fun o => decide (o < xfin q))
        ∧ (s.at q).2.offsets.Sorted (· < ·)
        ∧ (s.at q).2.states.map Prod.fst = s.states.map Prod.fst ++ [xfin q]) := by
  obtain ⟨hsort, hhead, hpres, hprops⟩ := wf
  constructor
  · intro hmem
    have hpre := hpres _ hmem
    cases hst : s.lookupState (xfin q) with
    | none => rw [hst] at hpre; simp at hpre
    | some st =>
      simp only [Session.at]
      rw [if_neg (not_lt.mpr hq), hst]
  · intro hnm
    have hnone : s.lookupState (xfin q) = none :=
      lookupState_none_of_not_mem ⟨hsort, hhead, hpres, hprops⟩ hnm
    set x := xfin q with hx
    set T := s.offsets.takeWhile (fun o => decide (o < x)) with hT
    set D := s.offsets.dropWhile (fun o => decide (o < x)) with hD
    have hTD : s.offsets = T ++ D := (List.takeWhile_append_dropWhile _ _).symm
    have hTne : T ≠ [] := by
      cases hoff : s.offsets with
      | nil => rw [hoff] at hhead; simp at hhead
      | cons o rest =>
        have : o = ⊥ := by rw [hoff] at hhead; simpa using hhead
        subst this
        rw [hT, hoff, List.takeWhile_cons, if_pos (by simp [hx])]
        simp
    have hA : ∀ o ∈ T, o < x := takeWhile_lt_of_sorted
    have hBge : ∀ b ∈ D, x ≤ b := dropWhile_ge_of_sorted hsort
    have hBgt : ∀ b ∈ D, x < b := dropWhile_gt_of_sorted hsort hnm
    rcases List.eq_nil_or_concat T with hTnil | ⟨A', a, hTa⟩
    · exact absurd hTnil hTne
    · rw [List.concat_eq_append] at hTa
      have hAB : s.offsets = A' ++ a :: D := by rw [hTD, hTa]; simp
      have haT : a ∈ T := by rw [hTa]; simp
      have haoff : a ∈ s.offsets := hTD ▸ List.mem_append_left D haT
      have hapre := hpres _ haoff
      cases hsta : s.lookupState a with
      | none => rw [hsta] at hapre; simp at hapre
      | some sta =>
        have hstaprops := SessionWF.lookup_props ⟨hsort, hhead, hpres, hprops⟩ hsta
        have hfsb : s.findStateBefore x false = some sta :=
          findStateBefore_spec hAB (hTa ▸ hA) hBge hsta false (by simp)
        have hTnodup : T.Nodup :=
          (List.Pairwise.sublist (List.takeWhile_sublist _) hsort).nodup
        have haA' : a ∉ A' := by
          rw [hTa] at hTnodup
          have := List.nodup_append.mp hTnodup
          intro hmem'
          exact this.2.2 hmem' (by simp)
        have hidxa : s.offsets.indexOf a = A'.length := by
          rw [hAB, List.indexOf_append_of_not_mem haA', List.indexOf_cons_self]
          omega
        have hoffs' :
            s.offsets.insertIdx (s.offsets.indexOf sta.offset + 1) x = T ++ x :: D := by
          rw [hstaprops.2.1, hidxa]
          have : A'.length + 1 = (A' ++ [a]).length := by simp
          rw [this]
          have hgrp : s.offsets = (A' ++ [a]) ++ D := by rw [hAB]; simp
          rw [hgrp, insertIdx_append_length, hTa]
        have hkeysne : ∀ p ∈ s.states, p.1 ≠ x := by
          intro p hp he
          exact hnm (he ▸ (hprops p hp).1)
        simp only [Session.at]
        rw [if_neg (not_lt.mpr hq), hnone]
        simp only [Session.addStateAt]
        rw [hfsb]
        refine ⟨by simpa using hoffs', ?_, by simpa using keys_updateAssoc_of_absent _ hkeysne⟩
        · have hsorted' : (T ++ x :: D).Sorted (· < ·) := by
            rw [List.Sorted, List.pairwise_append]
            refine ⟨List.Pairwise.sublist (List.takeWhile_sublist _) hsort, ?_, ?_⟩
            · rw [List.pairwise_cons]
              exact ⟨hBgt, List.Pairwise.sublist (List.dropWhile_sublist _) hsort⟩
            · intro o hoT b hb
              rcases List.mem_cons.mp hb with rfl | hbD
              · exact hA o hoT
              · exact lt_trans (hA o hoT) (hBgt b hbD)
          simpa [hoffs'] using hsorted'

end NRT

namespace NRT

/-- Witness for C10 at concrete inputs: on a fresh session, `at(0)` (already a
breakpoint) changes nothing, and `at(1)` splices `1.0` in after `0.0`, keeping
`[-inf, 0.0, 1.0]` sorted with exactly one new state keyed `1.0`. -/
theorem at_existing_noop_and_fresh_splices_witness :
    ((initialSession 0 0).at 0).2 = initialSession 0 0
    ∧ ((initialSession 0 0).at 1).2.offsets = [⊥, xfin 0, xfin 1]
    ∧ ((initialSession 0 0).at 1).2.states.map Prod.fst = [⊥, xfin 0, xfin 1] := by
  have wf : SessionWF (initialSession 0 0) := by
    refine ⟨by decide, by decide, by decide, by decide⟩
  refine ⟨(at_existing_noop_and_fresh_splices _ wf 0 (by norm_num)).1 (by decide), ?_, ?_⟩
  · have h := (at_existing_noop_and_fresh_splices _ wf 1 (by norm_num)).2 (by decide)
    rw [h.1]
    decide
  · have h := (at_existing_noop_and_fresh_splices _ wf 1 (by norm_num)).2 (by decide)
    rw [h.2.2]
    decide

end NRT

namespace NRT

theorem classifyStopNodes_eq (m : IdMap) (l : List Node) :
    classifyStopNodes m l =
      ((l.filter (fun n => !(n.hasSynthdef && n.hasGate) && n.durationIsTruthy)).map
          (fun n => lookupId m n.entity),
        (l.filter (fun n => n.hasSynthdef && n.hasGate)).map
          (fun n => lookupId m n.entity)) := by
  induction l with
  | nil => rfl
  | cons n rest ih =>
    simp only [classifyStopNodes, ih, List.filter_cons]
    cases hsg : (n.hasSynthdef && n.hasGate) <;> cases hdt : n.durationIsTruthy <;>
      simp only [hsg, hdt, Bool.not_false, Bool.not_true, Bool.false_and,
        Bool.true_and, Bool.and_false, Bool.and_true, if_true, if_false,
        Bool.false_eq_true, Bool.true_eq_false, List.map_cons]

/-- C3 (amended): for every stop set, the free requests consist of one batched
`NodeFreeRequest` whose ids are exactly those of the stopping nodes *with
nonzero duration* whose synthdef does not declare a `gate` parameter, sorted
ascending (omitted when empty), followed by one gate-to-zero `NodeSetRequest`
per gated node in ascending node-id order.  (The claim's "every other stopping
node" is cut down to those with truthy duration: the code's `elif
node.duration:` skips zero-duration nodes.) -/
theorem collectNodeFreeRequests_spec (m : IdMap) (stopNodes : List Node) :
    ∃ freeIds gateIds : List ℕ,
      collectNodeFreeRequests m stopNodes =
        (if freeIds.isEmpty then [] else [Request.nodeFree freeIds])
          ++ gateIds.map (fun nid => Request.nodeSet nid [("gate", 0)])
      ∧ freeIds.Sorted (· ≤ ·)
      ∧ gateIds.Sorted (· ≤ ·)
      ∧ freeIds.Perm
          ((stopNodes.filter
              (fun n => !(n.hasSynthdef && n.hasGate) && n.durationIsTruthy)).map
            (fun n => lookupId m n.entity))
      ∧ gateIds.Perm
          ((stopNodes.filter (fun n => n.hasSynthdef && n.hasGate)).map
            (fun n => lookupId m n.entity)) := by
  by_cases hemp : stopNodes.isEmpty = true
  · have : stopNodes = [] := by
      cases stopNodes with
      | nil => rfl
      | cons a l => simp at hemp
    subst this
    exact ⟨[], [], by simp [collectNodeFreeRequests], by simp, by simp, by simp, by simp⟩
  · refine ⟨(((stopNodes.filter
          (fun n => !(n.hasSynthdef && n.hasGate) && n.durationIsTruthy)).map
            (fun n => lookupId m n.entity)).insertionSort (fun a b => a ≤ b)),
      (((stopNodes.filter (fun n => n.hasSynthdef && n.hasGate)).map
            (fun n => lookupId m n.entity)).insertionSort (fun a b => a ≤ b)),
      ?_, ?_, ?_, ?_, ?_⟩
    · simp only [collectNodeFreeRequests, if_neg hemp, classifyStopNodes_eq]
    · exact List.sorted_insertionSort _ _
    · exact List.sorted_insertionSort _ _
    · exact List.perm_insertionSort _ _
    · exact List.perm_insertionSort _ _

/-- A stopping synth with zero duration and no `gate` parameter, for the C3
counterexample. -/
def c3ZeroDurationNode : Node :=
  { sessionId := 1000
    startOffset := 0
    stopOffset := xfin 0
    kind := NodeKind.synth ⟨"sd", [("frequency", ParamRate.control, 440)]⟩ [] }

/-- C3 counterexample: a gateless *zero-duration* stopping node receives no
request at all — in particular no hard free — although the claim as stated
promises a hard free for every non-gated stopping node. -/
theorem collectNodeFreeRequests_skips_zero_duration :
    c3ZeroDurationNode.hasSynthdef = true
    ∧ c3ZeroDurationNode.hasGate = false
    ∧ collectNodeFreeRequests [(Entity.node 1000, 1000)] [c3ZeroDurationNode] = [] := by
  refine ⟨by decide, by decide, by decide⟩

end NRT

namespace NRT

/-- A session whose only buses are one control-rate bus group of width 2
(group session id 7, member buses 10 and 11), for the C6 evaluation. -/
def c6Session : Session :=
  { initialSession 0 0 with
    buses :=
      [ { sessionId := 10, rate := CalcRate.control, busGroup := some (7, 2) }
      , { sessionId := 11, rate := CalcRate.control, busGroup := some (7, 2) } ] }

/-- C6: the bus id mapping mishandles grouped buses.  The group gets the
block's base id 0, but the inner loop of `_build_id_mapping_for_buses`
repeatedly assigns to `mapping[bus]` — the *outer* loop variable — so the
first member ends up mapped to the block's LAST id (1, not its sequential 0),
and the second member is skipped entirely (its group is already mapped) and
receives no id at all. -/
theorem buildIdMappingForBuses_bus_group_members :
    lookupAssoc (buildIdMappingForBuses c6Session) (Entity.busGroup 7) = some 0
    ∧ lookupAssoc (buildIdMappingForBuses c6Session) (Entity.bus 10) = some 1
    ∧ lookupAssoc (buildIdMappingForBuses c6Session) (Entity.bus 11) = none := by
  refine ⟨by decide, by decide, by decide⟩

end NRT

namespace NRT

/-! ### Membership lemmas for `updateAssoc`, and id-map invariants -/

section AssocMemLemmas

variable {α β : Type} [DecidableEq α]

theorem eq_of_mem_updateAssoc_same_key {l : List (α × β)} {k : α} {v : β} {q : α × β}
    (hq : q ∈ updateAssoc l k v) (hk : q.1 = k) : q = (k, v) := by
  unfold updateAssoc at hq
  by_cases hf : (l.find? (fun p => p.1 = k)).isSome
  · rw [if_pos hf] at hq
    rcases List.mem_map.mp hq with ⟨p, _, hpq⟩
    by_cases hpk : p.1 = k
    · rw [if_pos hpk] at hpq; exact hpq.symm
    · rw [if_neg hpk] at hpq; exact absurd (hpq ▸ hk) hpk
  · rw [if_neg hf] at hq
    rcases List.mem_append.mp hq with hql | hqr
    · exfalso
      rw [Option.isSome_iff_exists] at hf
      push_neg at hf
      have : l.find? (fun p => p.1 = k) = none := by
        cases hc : l.find? (fun p => p.1 = k) with
        | none => rfl
        | some p => exact absurd hc (hf p)
      rw [List.find?_eq_none] at this
      exact this q hql (by simp [hk])
    · simpa using hqr

theorem mem_of_mem_updateAssoc_ne_key {l : List (α × β)} {k : α} {v : β} {q : α × β}
    (hq : q ∈ updateAssoc l k v) (hk : q.1 ≠ k) : q ∈ l := by
  unfold updateAssoc at hq
  by_cases hf : (l.find? (fun p => p.1 = k)).isSome
  · rw [if_pos hf] at hq
    rcases List.mem_map.mp hq with ⟨p, hpl, hpq⟩
    by_cases hpk : p.1 = k
    · rw [if_pos hpk] at hpq
      exact absurd (hpq ▸ rfl : q.1 = k) hk
    · rw [if_neg hpk] at hpq
      exact hpq ▸ hpl
  · rw [if_neg hf] at hq
    rcases List.mem_append.mp hq with hql | hqr
    · exact hql
    · simp at hqr
      exact absurd (by rw [hqr]) hk

theorem mem_updateAssoc {l : List (α × β)} {k : α} {v : β} {q : α × β}
    (hq : q ∈ updateAssoc l k v) : q ∈ l ∨ q = (k, v) := by
  by_cases hk : q.1 = k
  · exact Or.inr (eq_of_mem_updateAssoc_same_key hq hk)
  · exact Or.inl (mem_of_mem_updateAssoc_ne_key hq hk)

theorem lookupAssoc_isSome_updateAssoc {l : List (α × β)} {k k' : α} {v : β}
    (h : (lookupAssoc l k).isSome = true) :
    (lookupAssoc (updateAssoc l k' v) k).isSome = true := by
  by_cases hk : k = k'
  · subst hk
    rw [lookupAssoc_updateAssoc_self]
    rfl
  · rw [lookupAssoc_updateAssoc_ne _ _ hk]
    exact h

theorem exists_mem_of_lookupAssoc_isSome {l : List (α × β)} {k : α}
    (h : (lookupAssoc l k).isSome = true) : ∃ p ∈ l, p.1 = k := by
  unfold lookupAssoc at h
  cases hf : l.find? (fun p => p.1 = k) with
  | none => rw [hf] at h; simp at h
  | some p =>
    exact ⟨p, List.mem_of_find?_eq_some hf, by simpa using List.find?_some hf⟩

theorem lookupAssoc_isSome_of_mem {l : List (α × β)} {q : α × β} (hq : q ∈ l) :
    (lookupAssoc l q.1).isSome = true := by
  induction l with
  | nil => simp at hq
  | cons p l ih =>
    rcases List.mem_cons.mp hq with rfl | hql
    · simp [lookupAssoc_cons]
    · rw [lookupAssoc_cons]
      by_cases hpk : p.1 = q.1
      · simp [hpk]
      · rw [if_neg hpk]
        exact ih hql

end AssocMemLemmas

/-- Binding-level invariant of the node id mapping: every binding at the root
key carries 0, every binding at a node key carries that node's session id,
and only root/node keys occur. -/
def NodeMapInv (m : IdMap) : Prop :=
  (∀ p ∈ m, p.1 = Entity.root → p.2 = 0)
  ∧ (∀ p ∈ m, ∀ sid, p.1 = Entity.node sid → p.2 = sid)
  ∧ (∀ p ∈ m, p.1 = Entity.root ∨ ∃ sid, p.1 = Entity.node sid)

theorem nodeIdStep_inv {acc : IdMap × ℕ} {n : Node} (hn : n.isRoot = false)
    (h : NodeMapInv acc.1) : NodeMapInv (nodeIdStep acc n).1 := by
  have hent : n.entity = Entity.node n.sessionId := by
    unfold Node.entity
    rw [if_neg (by simp [hn])]
  obtain ⟨h0, hnid, hkeys⟩ := h
  refine ⟨?_, ?_, ?_⟩ <;> intro p hp
  · intro hroot
    simp only [nodeIdStep, hent] at hp
    have hne : p.1 ≠ Entity.node n.sessionId := by rw [hroot]; simp
    have := mem_of_mem_updateAssoc_ne_key (mem_of_mem_updateAssoc_ne_key hp hne) hne
    exact h0 p this hroot
  · intro sid hsid
    simp only [nodeIdStep, hent] at hp
    by_cases hsn : sid = n.sessionId
    · subst hsn
      have := eq_of_mem_updateAssoc_same_key hp (by rw [hsid])
      rw [this]
    · have hne : p.1 ≠ Entity.node n.sessionId := by
        rw [hsid]; simp [hsn]
      have := mem_of_mem_updateAssoc_ne_key (mem_of_mem_updateAssoc_ne_key hp hne) hne
      exact hnid p this sid hsid
  · simp only [nodeIdStep, hent] at hp
    rcases mem_updateAssoc hp with hp1 | hpe
    · rcases mem_updateAssoc hp1 with hp2 | hpe'
      · exact hkeys p hp2
      · exact Or.inr ⟨n.sessionId, by rw [hpe']⟩
    · exact Or.inr ⟨n.sessionId, by rw [hpe]⟩

theorem nodeIdStep_isSome {acc : IdMap × ℕ} {n : Node} {k : Entity}
    (h : (lookupAssoc acc.1 k).isSome = true) :
    (lookupAssoc (nodeIdStep acc n).1 k).isSome = true := by
  simp only [nodeIdStep]
  exact lookupAssoc_isSome_updateAssoc (lookupAssoc_isSome_updateAssoc h)

theorem foldl_nodeIdStep_inv {l : List Node} (hl : ∀ n ∈ l, n.isRoot = false)
    {acc : IdMap × ℕ} (h : NodeMapInv acc.1) :
    NodeMapInv (l.foldl nodeIdStep acc).1 := by
  induction l generalizing acc with
  | nil => exact h
  | cons n l ih =>
    exact ih (fun n' hn' => hl n' (by simp [hn'])) (nodeIdStep_inv (hl n (by simp)) h)

theorem foldl_nodeIdStep_isSome {l : List Node} {acc : IdMap × ℕ} {k : Entity}
    (h : (lookupAssoc acc.1 k).isSome = true) :
    (lookupAssoc (l.foldl nodeIdStep acc).1 k).isSome = true := by
  induction l generalizing acc with
  | nil => exact h
  | cons n l ih => exact ih (nodeIdStep_isSome h)

theorem foldl_nodeIdStep_mem {l : List Node} {n : Node} (hn : n ∈ l)
    (hnr : n.isRoot = false) (acc : IdMap × ℕ) :
    (lookupAssoc (l.foldl nodeIdStep acc).1 (Entity.node n.sessionId)).isSome = true := by
  induction l generalizing acc with
  | nil => simp at hn
  | cons n' l ih =>
    rcases List.mem_cons.mp hn with rfl | hnl
    · rw [List.foldl_cons]
      refine foldl_nodeIdStep_isSome ?_
      have hent : n.entity = Entity.node n.sessionId := by
        unfold Node.entity
        rw [if_neg (by simp [hnr])]
      show (lookupAssoc (updateAssoc (updateAssoc acc.1 n.entity acc.2) n.entity
          n.sessionId) (Entity.node n.sessionId)).isSome = true
      rw [hent, lookupAssoc_updateAssoc_self]
      rfl
    · exact ih hnl _

end NRT

namespace NRT

/-- Every binding of the buffer id mapping at a buffer key carries that
buffer's own session id, and only buffer/buffer-group keys occur. -/
def BufMapInv (m : IdMap) : Prop :=
  (∀ p ∈ m, ∀ sid, p.1 = Entity.buffer sid → p.2 = sid)
  ∧ (∀ p ∈ m, (∃ sid, p.1 = Entity.buffer sid) ∨ ∃ gid, p.1 = Entity.bufferGroup gid)

theorem foldl_bufferMember_inv {members : List ℕ} {m : IdMap} (h : BufMapInv m) :
    BufMapInv (members.foldl (fun m sid => updateAssoc m (Entity.buffer sid) sid) m) := by
  induction members generalizing m with
  | nil => exact h
  | cons sid rest ih =>
    refine ih ⟨?_, ?_⟩ <;> intro p hp
    · intro sid' hsid'
      by_cases hs : sid' = sid
      · subst hs
        have := eq_of_mem_updateAssoc_same_key hp (by rw [hsid'])
        rw [this]
      · have hne : p.1 ≠ Entity.buffer sid := by rw [hsid']; simp [hs]
        exact h.1 p (mem_of_mem_updateAssoc_ne_key hp hne) sid' hsid'
    · rcases mem_updateAssoc hp with hpm | hpe
      · exact h.2 p hpm
      · exact Or.inl ⟨sid, by rw [hpe]⟩

theorem bufferIdStep_inv {m : IdMap} {b : BufferM} (h : BufMapInv m) :
    BufMapInv (bufferIdStep m b) := by
  unfold bufferIdStep
  by_cases hc : (lookupAssoc m (Entity.buffer b.sessionId)).isSome = true
  · rw [if_pos hc]; exact h
  · rw [if_neg hc]
    cases hbg : b.bufferGroup with
    | none =>
      refine ⟨?_, ?_⟩ <;> intro p hp
      · intro sid hsid
        by_cases hs : sid = b.sessionId
        · subst hs
          have := eq_of_mem_updateAssoc_same_key hp (by rw [hsid])
          rw [this]
        · have hne : p.1 ≠ Entity.buffer b.sessionId := by rw [hsid]; simp [hs]
          exact h.1 p (mem_of_mem_updateAssoc_ne_key hp hne) sid hsid
      · rcases mem_updateAssoc hp with hpm | hpe
        · exact h.2 p hpm
        · exact Or.inl ⟨b.sessionId, by rw [hpe]⟩
    | some gm =>
      refine foldl_bufferMember_inv ⟨?_, ?_⟩ <;> intro p hp
      · intro sid hsid
        have hne : p.1 ≠ Entity.bufferGroup gm.1 := by rw [hsid]; simp
        exact h.1 p (mem_of_mem_updateAssoc_ne_key hp hne) sid hsid
      · rcases mem_updateAssoc hp with hpm | hpe
        · exact h.2 p hpm
        · exact Or.inr ⟨gm.1, by rw [hpe]⟩

theorem buildIdMappingForBuffers_inv (s : Session) :
    BufMapInv (buildIdMappingForBuffers s) := by
  unfold buildIdMappingForBuffers
  have base : BufMapInv [] := ⟨by simp, by simp⟩
  generalize ([] : IdMap) = m at *
  induction s.buffers generalizing m with
  | nil => exact base
  | cons b rest ih => exact ih _ (bufferIdStep_inv base)

theorem bufferIdStep_isSome {m : IdMap} {b : BufferM} {k : Entity}
    (h : (lookupAssoc m k).isSome = true) :
    (lookupAssoc (bufferIdStep m b) k).isSome = true := by
  unfold bufferIdStep
  by_cases hc : (lookupAssoc m (Entity.buffer b.sessionId)).isSome = true
  · rw [if_pos hc]; exact h
  · rw [if_neg hc]
    cases b.bufferGroup with
    | none => exact lookupAssoc_isSome_updateAssoc h
    | some gm =>
      have : ∀ (members : List ℕ) (m' : IdMap),
          (lookupAssoc m' k).isSome = true →
          (lookupAssoc (members.foldl
            (fun m sid => updateAssoc m (Entity.buffer sid) sid) m') k).isSome = true := by
        intro members
        induction members with
        | nil => intro m' h'; exact h'
        | cons sid rest ih =>
          intro m' h'
          exact ih _ (lookupAssoc_isSome_updateAssoc h')
      exact this gm.2 _ (lookupAssoc_isSome_updateAssoc h)

theorem bufferIdStep_self_isSome (m : IdMap) (b : BufferM)
    (hgrp : ∀ gid members, b.bufferGroup = some (gid, members) → b.sessionId ∈ members) :
    (lookupAssoc (bufferIdStep m b) (Entity.buffer b.sessionId)).isSome = true := by
  unfold bufferIdStep
  by_cases hc : (lookupAssoc m (Entity.buffer b.sessionId)).isSome = true
  · rw [if_pos hc]; exact hc
  · rw [if_neg hc]
    cases hbg : b.bufferGroup with
    | none =>
      rw [lookupAssoc_updateAssoc_self]
      rfl
    | some gm =>
      have hmem : b.sessionId ∈ gm.2 := hgrp gm.1 gm.2 (by rw [hbg])
      have : ∀ (members : List ℕ) (m' : IdMap), b.sessionId ∈ members →
          (lookupAssoc (members.foldl
            (fun m sid => updateAssoc m (Entity.buffer sid) sid) m')
            (Entity.buffer b.sessionId)).isSome = true := by
        intro members
        induction members with
        | nil => intro m' h'; simp at h'
        | cons sid rest ih =>
          intro m' h'
          rcases List.mem_cons.mp h' with rfl | h''
          · rw [List.foldl_cons]
            have : ∀ (ms : List ℕ) (mm : IdMap),
                (lookupAssoc mm (Entity.buffer b.sessionId)).isSome = true →
                (lookupAssoc (ms.foldl
                  (fun m sid => updateAssoc m (Entity.buffer sid) sid) mm)
                  (Entity.buffer b.sessionId)).isSome = true := by
              intro ms
              induction ms with
              | nil => intro mm hmm; exact hmm
              | cons s2 r2 ih2 => intro mm hmm; exact ih2 _ (lookupAssoc_isSome_updateAssoc hmm)
            refine this rest _ ?_
            rw [lookupAssoc_updateAssoc_self]
            rfl
          · exact ih _ h''
      exact this gm.2 _ hmem

theorem buildIdMappingForBuffers_self_isSome (s : Session) {b : BufferM}
    (hb : b ∈ s.buffers)
    (hgrp : ∀ gid members, b.bufferGroup = some (gid, members) → b.sessionId ∈ members) :
    (lookupAssoc (buildIdMappingForBuffers s) (Entity.buffer b.sessionId)).isSome = true := by
  unfold buildIdMappingForBuffers
  rcases List.append_of_mem hb with ⟨l₁, l₂, hl⟩
  rw [hl, List.foldl_append, List.foldl_cons]
  have hself := bufferIdStep_self_isSome (l₁.foldl bufferIdStep []) b hgrp
  have hmono : ∀ (l : List BufferM) (m : IdMap),
      (lookupAssoc m (Entity.buffer b.sessionId)).isSome = true →
      (lookupAssoc (l.foldl bufferIdStep m) (Entity.buffer b.sessionId)).isSome = true := by
    intro l
    induction l with
    | nil => intro m hm; exact hm
    | cons b' rest ih => intro m hm; exact ih _ (bufferIdStep_isSome hm)
  exact hmono l₂ _ hself

end NRT

namespace NRT

/-- The key kinds written by the bus id mapping builder. -/
def isBusKey : Entity → Prop
  | Entity.bus _ => True
  | Entity.busGroup _ => True
  | Entity.audioInputBusGroup => True
  | Entity.audioOutputBusGroup => True
  | Entity.hardwareInBus _ => True
  | Entity.hardwareOutBus _ => True
  | _ => False

theorem busIdStep_keys {acc : IdMap × BlockAllocator × BlockAllocator} {bus : BusM}
    (h : ∀ p ∈ acc.1, isBusKey p.1) : ∀ p ∈ (busIdStep acc bus).1, isBusKey p.1 := by
  obtain ⟨m, aA, cA⟩ := acc
  simp only [busIdStep]
  split
  · exact h
  · cases hbg : bus.busGroup with
    | none =>
      obtain ⟨i, a', c'⟩ := allocFor bus.rate aA cA 1
      intro p hp
      rcases mem_updateAssoc hp with hpm | hpe
      · exact h p hpm
      · rw [hpe]; trivial
    | some gm =>
      obtain ⟨gid, width⟩ := gm
      have hgrp : ∀ (B : ℕ), ∀ p ∈ updateAssoc m (Entity.busGroup gid) B, isBusKey p.1 := by
        intro B p hp
        rcases mem_updateAssoc hp with hpm | hpe
        · exact h p hpm
        · rw [hpe]; trivial
      have hloop : ∀ (l : List ℕ) (B : ℕ) (m' : IdMap), (∀ p ∈ m', isBusKey p.1) →
          ∀ p ∈ l.foldl (fun m k => updateAssoc m (Entity.bus bus.sessionId) (B + k)) m',
            isBusKey p.1 := by
        intro l
        induction l with
        | nil => intro B m' h'; exact h'
        | cons k rest ih =>
          intro B m' h'
          refine ih _ _ ?_
          intro p hp
          rcases mem_updateAssoc hp with hpm | hpe
          · exact h' p hpm
          · rw [hpe]; trivial
      exact hloop (List.range width) _ _ (hgrp _)

theorem buildIdMappingForBuses_keys (s : Session) :
    ∀ p ∈ buildIdMappingForBuses s, isBusKey p.1 := by
  unfold buildIdMappingForBuses
  have hrange : ∀ (f : ℕ → Entity) (g : ℕ → ℕ), (∀ i, isBusKey (f i)) →
      ∀ (l : List ℕ) (m : IdMap), (∀ p ∈ m, isBusKey p.1) →
      ∀ p ∈ l.foldl (fun m i => updateAssoc m (f i) (g i)) m, isBusKey p.1 := by
    intro f g hf l
    induction l with
    | nil => intro m h; exact h
    | cons i rest ih =>
      intro m h
      refine ih _ ?_
      intro p hp
      rcases mem_updateAssoc hp with hpm | hpe
      · exact h p hpm
      · rw [hpe]; exact hf i
  have hbase : ∀ p ∈ ([] : IdMap), isBusKey p.1 := by simp
  have hm1 : ∀ p ∈ (if s.outputCount ≠ 0 then
      (List.range s.outputCount).foldl
        (fun m i => updateAssoc m (Entity.hardwareOutBus i) i)
        (updateAssoc ([] : IdMap) Entity.audioOutputBusGroup 0)
    else ([] : IdMap)), isBusKey p.1 := by
    split
    · refine hrange (fun i => Entity.hardwareOutBus i) (fun i => i) (fun i => trivial) _ _ ?_
      intro p hp
      rcases mem_updateAssoc hp with hpm | hpe
      · exact hbase p hpm
      · rw [hpe]; trivial
    · exact hbase
  set m1 := (if s.outputCount ≠ 0 then
      (List.range s.outputCount).foldl
        (fun m i => updateAssoc m (Entity.hardwareOutBus i) i)
        (updateAssoc ([] : IdMap) Entity.audioOutputBusGroup 0)
    else ([] : IdMap)) with hm1def
  have hm2 : ∀ p ∈ (if s.inputCount ≠ 0 then
      (List.range s.inputCount).foldl
        (fun m i => updateAssoc m (Entity.hardwareInBus i) (s.outputCount + i))
        (updateAssoc m1 Entity.audioInputBusGroup s.outputCount)
    else m1), isBusKey p.1 := by
    split
    · refine hrange (fun i => Entity.hardwareInBus i) (fun i => s.outputCount + i)
        (fun i => trivial) _ _ ?_
      intro p hp
      rcases mem_updateAssoc hp with hpm | hpe
      · exact hm1 p hpm
      · rw [hpe]; trivial
    · exact hm1
  have hfold : ∀ (l : List BusM) (acc : IdMap × BlockAllocator × BlockAllocator),
      (∀ p ∈ acc.1, isBusKey p.1) → ∀ p ∈ (l.foldl busIdStep acc).1, isBusKey p.1 := by
    intro l
    induction l with
    | nil => intro acc h; exact h
    | cons bus rest ih => intro acc h; exact ih _ (busIdStep_keys h)
  exact hfold s.buses _ hm2

theorem lookupAssoc_value_of_inv {α β : Type} [DecidableEq α] {m : List (α × β)}
    {k : α} {v : β} (hsome : (lookupAssoc m k).isSome = true)
    (hall : ∀ p ∈ m, p.1 = k → p.2 = v) : lookupAssoc m k = some v := by
  unfold lookupAssoc at *
  cases hf : m.find? (fun p => p.1 = k) with
  | none => rw [hf] at hsome; simp at hsome
  | some p =>
    have hk : p.1 = k := by simpa using List.find?_some hf
    have := hall p (List.mem_of_find?_eq_some hf) hk
    simp [hf, this]

theorem lookupState_mem {s : Session} {o : XTime} {st : StateM}
    (h : s.lookupState o = some st) : ∃ p ∈ s.states, p.2 = st ∧ p.1 = o := by
  unfold Session.lookupState lookupAssoc at h
  cases hf : s.states.find? (fun p => p.1 = o) with
  | none => rw [hf] at h; simp at h
  | some p =>
    rw [hf] at h
    simp at h
    exact ⟨p, List.mem_of_find?_eq_some hf, h, by simpa using List.find?_some hf⟩

theorem nodeIdOffsetStep_inv {s : Session} {acc : IdMap × ℕ} {off : XTime}
    (hnr : ∀ p ∈ s.states, ∀ n ∈ p.2.startNodes, n.isRoot = false)
    (h : NodeMapInv acc.1) : NodeMapInv (nodeIdOffsetStep s acc off).1 := by
  unfold nodeIdOffsetStep
  cases hst : s.lookupState off with
  | none => exact h
  | some st =>
    refine foldl_nodeIdStep_inv ?_ h
    intro n hn
    have hmem : n ∈ st.startNodes :=
      ((List.perm_insertionSort _ _).mem_iff).mp hn
    obtain ⟨p, hp, hpst, _⟩ := lookupState_mem hst
    exact hnr p hp n (hpst ▸ hmem)

theorem nodeIdOffsetStep_isSome {s : Session} {acc : IdMap × ℕ} {off : XTime}
    {k : Entity} (h : (lookupAssoc acc.1 k).isSome = true) :
    (lookupAssoc (nodeIdOffsetStep s acc off).1 k).isSome = true := by
  unfold nodeIdOffsetStep
  cases s.lookupState off with
  | none => exact h
  | some st => exact foldl_nodeIdStep_isSome h

theorem foldl_nodeIdOffsetStep_isSome {s : Session} {l : List XTime}
    {acc : IdMap × ℕ} {k : Entity} (h : (lookupAssoc acc.1 k).isSome = true) :
    (lookupAssoc (l.foldl (nodeIdOffsetStep s) acc).1 k).isSome = true := by
  induction l generalizing acc with
  | nil => exact h
  | cons o rest ih => exact ih (nodeIdOffsetStep_isSome h)

theorem buildIdMappingForNodes_inv (s : Session)
    (hnr : ∀ p ∈ s.states, ∀ n ∈ p.2.startNodes, n.isRoot = false) :
    NodeMapInv (buildIdMappingForNodes s) := by
  unfold buildIdMappingForNodes
  have hbase : NodeMapInv [(Entity.root, 0)] := by
    refine ⟨?_, ?_, ?_⟩ <;> intro p hp <;> simp at hp <;> simp [hp]
  have hfold : ∀ (l : List XTime) (acc : IdMap × ℕ), NodeMapInv acc.1 →
      NodeMapInv (l.foldl (nodeIdOffsetStep s) acc).1 := by
    intro l
    induction l with
    | nil => intro acc h; exact h
    | cons o rest ih => intro acc h; exact ih _ (nodeIdOffsetStep_inv hnr h)
  exact hfold _ _ hbase

theorem buildIdMappingForNodes_root_isSome (s : Session) :
    (lookupAssoc (buildIdMappingForNodes s) Entity.root).isSome = true := by
  unfold buildIdMappingForNodes
  refine foldl_nodeIdOffsetStep_isSome ?_
  simp [lookupAssoc_cons]

theorem buildIdMappingForNodes_node_isSome (s : Session) {o : XTime} {st : StateM}
    {n : Node} (ho : o ∈ s.offsets.drop 1) (hst : s.lookupState o = some st)
    (hn : n ∈ st.startNodes) (hnroot : n.isRoot = false) :
    (lookupAssoc (buildIdMappingForNodes s) (Entity.node n.sessionId)).isSome = true := by
  unfold buildIdMappingForNodes
  rcases List.append_of_mem ho with ⟨l₁, l₂, hl⟩
  rw [hl, List.foldl_append, List.foldl_cons]
  refine foldl_nodeIdOffsetStep_isSome ?_
  unfold nodeIdOffsetStep
  rw [hst]
  exact foldl_nodeIdStep_mem (((List.perm_insertionSort _ _).mem_iff).mpr hn) hnroot _

end NRT

namespace NRT

theorem buildIdMapping_root (s : Session)
    (hnr : ∀ p ∈ s.states, ∀ n ∈ p.2.startNodes, n.isRoot = false) :
    lookupAssoc (buildIdMapping s) Entity.root = some 0 := by
  unfold buildIdMapping
  refine lookupAssoc_updateAll_some ((buildIdMappingForNodes_inv s hnr).1) _ (Or.inr ?_)
  obtain ⟨p, hp, hk⟩ := exists_mem_of_lookupAssoc_isSome (buildIdMappingForNodes_root_isSome s)
  exact ⟨p, hp, hk⟩

theorem buildIdMapping_node (s : Session)
    (hnr : ∀ p ∈ s.states, ∀ n ∈ p.2.startNodes, n.isRoot = false)
    {o : XTime} {st : StateM} {n : Node} (ho : o ∈ s.offsets.drop 1)
    (hst : s.lookupState o = some st) (hn : n ∈ st.startNodes)
    (hnroot : n.isRoot = false) :
    lookupAssoc (buildIdMapping s) (Entity.node n.sessionId) = some n.sessionId := by
  unfold buildIdMapping
  refine lookupAssoc_updateAll_some ?_ _ (Or.inr ?_)
  · intro p hp hkey
    exact (buildIdMappingForNodes_inv s hnr).2.1 p hp n.sessionId hkey
  · obtain ⟨p, hp, hk⟩ := exists_mem_of_lookupAssoc_isSome
      (buildIdMappingForNodes_node_isSome s ho hst hn hnroot)
    exact ⟨p, hp, hk⟩

theorem buildIdMapping_buffer (s : Session)
    (hnr : ∀ p ∈ s.states, ∀ n ∈ p.2.startNodes, n.isRoot = false)
    {b : BufferM} (hb : b ∈ s.buffers)
    (hgrp : ∀ gid members, b.bufferGroup = some (gid, members) → b.sessionId ∈ members) :
    lookupAssoc (buildIdMapping s) (Entity.buffer b.sessionId) = some b.sessionId := by
  unfold buildIdMapping
  rw [lookupAssoc_updateAll_of_keys_ne (fun p hp => ?_)]
  · rw [lookupAssoc_updateAll_of_keys_ne (fun p hp => ?_)]
    · refine lookupAssoc_updateAll_some ?_ _ (Or.inr ?_)
      · intro p hp hkey
        exact (buildIdMappingForBuffers_inv s).1 p hp b.sessionId hkey
      · obtain ⟨p, hp, hk⟩ := exists_mem_of_lookupAssoc_isSome
          (buildIdMappingForBuffers_self_isSome s hb hgrp)
        exact ⟨p, hp, hk⟩
    · have := buildIdMappingForBuses_keys s p hp
      intro hkey
      rw [hkey] at this
      exact this
  · rcases (buildIdMappingForNodes_inv s hnr).2.2 p hp with hr | ⟨sid, hs⟩
    · rw [hr]; simp
    · rw [hs]; simp

end NRT

namespace NRT

/-! ### Pure characterization of the per-offset request compiler -/

theorem findStateAtClone_present {s : Session} {o : XTime} {st : StateM}
    (h : s.lookupState o = some st) : s.findStateAtClone o = (st, s) := by
  unfold Session.findStateAtClone
  rw [h]

/-- The value of `_collect_durated_objects` as a pure function of the
collections and the state. -/
def duratedOf (buffers : List BufferM) (nodes : List Node) (state : StateM)
    (offset : XTime) (isLast : Bool) : DuratedObjects :=
  let stopBuffers :=
    if isLast then listUnion state.stopBuffers state.overlapBuffers else state.stopBuffers
  let stopNodes :=
    if isLast then listUnion state.stopNodes state.overlapNodes else state.stopNodes
  ⟨listUnion (buffers.filter (fun b => b.intersects offset)) stopBuffers,
    listUnion (nodes.filter (fun n => n.intersects offset)) stopNodes,
    state.startBuffers, state.startNodes, stopBuffers, stopNodes⟩

theorem collectDuratedObjects_present {s : Session} {o : XTime} {st : StateM}
    (h : s.lookupState o = some st) (isLast : Bool) :
    s.collectDuratedObjects o isLast = (duratedOf s.buffers s.nodes st o isLast, s) := by
  unfold Session.collectDuratedObjects duratedOf
  rw [findStateAtClone_present h]

theorem collectDuratedObjects_clone {s s' : Session} {o : XTime} {stD : StateM}
    (hclone : s.findStateAtClone o = (stD, s')) (isLast : Bool) :
    s.collectDuratedObjects o isLast = (duratedOf s'.buffers s'.nodes stD o isLast, s') := by
  unfold Session.collectDuratedObjects duratedOf
  rw [hclone]

/-- The value of `_collect_node_settings` once the state's tree is known. -/
def nodeSettingsOf (t : List (Node × List Node)) (offset : XTime) :
    List (Node × List (String × Value)) :=
  (iterateNodes t (t.length + 1) rootNode).foldl
    (fun acc n =>
      let settings := n.collectSettingsAt offset
      if settings.isEmpty then acc else acc ++ [(n, settings)])
    []

theorem collectNodeSettings_of_tree {s : Session} {offset : XTime} {st : StateM}
    {t : List (Node × List Node)} (ht : st.nodesToChildren = some t) (m : IdMap) :
    s.collectNodeSettings offset st m = nodeSettingsOf t offset := by
  unfold Session.collectNodeSettings nodeSettingsOf
  rw [ht]

/-- The per-offset compile as a pure function of the object collections, the
state at the offset, and its tree (proof infrastructure: the session-threaded
`collectRequestsAtOffset` reduces to this when the state is stored). -/
def compileAt (buffers : List BufferM) (nodes : List Node) (st : StateM)
    (t : List (Node × List Node)) (env : CompileEnv) (bos : BufferOpenStates)
    (isLast : Bool) (offset : XTime) (visited : List SynthDefM) :
    List Request × BufferOpenStates × List SynthDefM :=
  let dob := duratedOf buffers nodes st offset isLast
  let nodeSettings := nodeSettingsOf t offset
  let synthdefStep := collectSynthdefRequests dob.startNodes visited
  let allocStep := collectBufferAllocateRequests bos env.idMap dob.startBuffers
  let postStep := collectBufferNonlifecycleRequests allocStep.2 env.bufferSettings offset
    orderedBufferPostAllocRequestTypes
  let actionStep := collectNodeActionRequests env.duration env.idMap st.transitions
    nodeSettings dob.startNodes
  let busReqs := collectBusSetRequests env.busSettings offset
  let setReqs := collectNodeSetRequests env.idMap actionStep.2
  let freeReqs := collectNodeFreeRequests env.idMap dob.stopNodes
  let preFreeStep := collectBufferNonlifecycleRequests postStep.2 env.bufferSettings offset
    orderedBufferPreFreeRequestTypes
  let bufFreeStep := collectBufferFreeRequests preFreeStep.2 env.idMap dob.stopBuffers
  (synthdefStep.1 ++ allocStep.1 ++ postStep.1 ++ actionStep.1 ++ busReqs ++ setReqs
      ++ freeReqs ++ preFreeStep.1 ++ bufFreeStep.1,
    bufFreeStep.2, synthdefStep.2)

theorem collectRequestsAtOffset_pure {s : Session} {offset : XTime} {st : StateM}
    {t : List (Node × List Node)} (h : s.lookupState offset = some st)
    (ht : st.nodesToChildren = some t) (env : CompileEnv) (bos : BufferOpenStates)
    (isLast : Bool) (visited : List SynthDefM) :
    s.collectRequestsAtOffset env bos isLast offset visited =
      ((compileAt s.buffers s.nodes st t env bos isLast offset visited).1, s,
        (compileAt s.buffers s.nodes st t env bos isLast offset visited).2.1,
        (compileAt s.buffers s.nodes st t env bos isLast offset visited).2.2) := by
  simp only [Session.collectRequestsAtOffset, compileAt,
    collectDuratedObjects_present h, findStateAtClone_present h,
    collectNodeSettings_of_tree ht]

theorem collectRequestsAtOffset_missing {s s' : Session} {x : XTime} {stD : StateM}
    {t : List (Node × List Node)}
    (hclone : s.findStateAtClone x = (stD, s'))
    (h' : s'.lookupState x = some stD) (htD : stD.nodesToChildren = some t)
    (env : CompileEnv) (bos : BufferOpenStates) (isLast : Bool)
    (visited : List SynthDefM) :
    s.collectRequestsAtOffset env bos isLast x visited =
      s'.collectRequestsAtOffset env bos isLast x visited
    ∧ (s'.collectRequestsAtOffset env bos isLast x visited).2.1 = s' := by
  have hR := collectRequestsAtOffset_pure h' htD env bos isLast visited
  constructor
  · rw [hR]
    simp only [Session.collectRequestsAtOffset, compileAt,
      collectDuratedObjects_clone hclone, findStateAtClone_present h',
      collectNodeSettings_of_tree htD]
  · rw [hR]

end NRT

namespace NRT

theorem bundleLoop_all_present (env : CompileEnv) :
    ∀ (offs : List XTime) (s : Session) (bos : BufferOpenStates) (vis : List SynthDefM),
    (∀ o ∈ offs, ∃ st t, s.lookupState o = some st ∧ st.nodesToChildren = some t) →
    (bundleLoop env s bos vis offs).2 = s := by
  intro offs
  induction offs with
  | nil => intro s bos vis _; rfl
  | cons o rest ih =>
    intro s bos vis h
    obtain ⟨st, t, hst, ht⟩ := h o (by simp)
    have hP := collectRequestsAtOffset_pure hst ht env bos
      (decide (o = xfin env.duration)) vis
    simp only [bundleLoop, hP]
    split
    · rfl
    · exact ih s _ _ (fun o' ho' => h o' (by simp [ho']))

theorem bundleLoop_missing_agree (env : CompileEnv) {x : XTime} {s s' : Session}
    {stD : StateM} {t : List (Node × List Node)}
    (hclone : s.findStateAtClone x = (stD, s'))
    (h'x : s'.lookupState x = some stD) (htD : stD.nodesToChildren = some t)
    (hx : x = xfin env.duration)
    (hbuf : s'.buffers = s.buffers) (hnod : s'.nodes = s.nodes) :
    ∀ (P : List XTime) (bos : BufferOpenStates) (vis : List SynthDefM)
      (rest : List XTime),
    (∀ o ∈ P, o ≠ x ∧ ∃ st t', s.lookupState o = some st
        ∧ st.nodesToChildren = some t' ∧ s'.lookupState o = some st) →
    bundleLoop env s bos vis (P ++ x :: rest) =
      bundleLoop env s' bos vis (P ++ x :: rest) := by
  intro P
  induction P with
  | nil =>
    intro bos vis rest _
    simp only [List.nil_append, bundleLoop]
    rw [(collectRequestsAtOffset_missing hclone h'x htD env bos
      (decide (x = xfin env.duration)) vis).1]
  | cons o P ih =>
    intro bos vis rest hP
    have hne : o ≠ x := (hP o (by simp)).1
    obtain ⟨st, t', hsto, hto, hs'o⟩ := (hP o (by simp)).2
    have hne' : ¬ (o = xfin env.duration) := by rw [← hx]; exact hne
    have hLp := collectRequestsAtOffset_pure hsto hto env bos
      (decide (o = xfin env.duration)) vis
    have hRp := collectRequestsAtOffset_pure hs'o hto env bos
      (decide (o = xfin env.duration)) vis
    rw [hbuf, hnod] at hRp
    simp only [List.cons_append, bundleLoop, hLp, hRp]
    simp only [if_neg hne', List.append_eq]
    rw [ih _ _ _ (fun o' ho' => hP o' (by simp [ho']))]
end NRT

namespace NRT

/-! ### Inserting the duration offset into the sorted offset list -/

theorem orderedInsert_eq_cons {l : List XTime} {a : XTime}
    (h : ∀ b ∈ l, a ≤ b) : List.orderedInsert (fun a b => a ≤ b) a l = a :: l := by
  cases l with
  | nil => rfl
  | cons b t =>
    simp only [List.orderedInsert]
    rw [if_pos (h b (by simp))]

/-- Appending a fresh element to a strictly sorted list and insertion-sorting
(the linearizer's `sorted(offsets + [duration])`) splices the element in at
its ordered position. -/
theorem insertionSort_append_single {l : List XTime} (hs : l.Sorted (· < ·))
    {x : XTime} (hx : x ∉ l) :
    (l ++ [x]).insertionSort (fun a b => a ≤ b) =
      l.takeWhile (fun o => decide (o < x)) ++
        x :: l.dropWhile (fun o => decide (o < x)) := by
  induction l with
  | nil => simp [List.insertionSort, List.orderedInsert]
  | cons a l ih =>
    rcases List.sorted_cons.mp hs with ⟨ha, hl⟩
    have hxl : x ∉ l := fun h => hx (List.mem_cons_of_mem _ h)
    have hih := ih hl hxl
    have hxa : x ≠ a := fun h => hx (by rw [h]; exact List.mem_cons_self a l)
    rw [List.cons_append]
    simp only [List.insertionSort]
    rw [hih]
    by_cases hax : a < x
    · have hle : ∀ b ∈ l.takeWhile (fun o => decide (o < x)) ++
          x :: l.dropWhile (fun o => decide (o < x)), a ≤ b := by
        intro b hb
        rcases List.mem_append.mp hb with hbT | hbD
        · exact le_of_lt (ha b ((List.takeWhile_sublist _).mem hbT))
        · rcases List.mem_cons.mp hbD with rfl | hbD'
          · exact le_of_lt hax
          · exact le_of_lt (ha b ((List.dropWhile_sublist _).mem hbD'))
      rw [orderedInsert_eq_cons hle, List.takeWhile_cons,
        if_pos (by simpa using hax), List.dropWhile_cons, if_pos (by simpa using hax)]
      simp
    · have hxa' : x < a := lt_of_le_of_ne (not_lt.mp hax) hxa
      have htl : l.takeWhile (fun o => decide (o < x)) = [] := by
        cases hlc : l with
        | nil => rfl
        | cons b t =>
          have hb : a < b := by rw [hlc] at ha; exact ha b (by simp)
          rw [List.takeWhile_cons, if_neg (by simp; exact le_of_lt (lt_trans hxa' hb))]
      have hdl : l.dropWhile (fun o => decide (o < x)) = l := by
        have := List.takeWhile_append_dropWhile (fun o => decide (o < x)) l
        rw [htl] at this
        simpa using this
      rw [htl, hdl, List.takeWhile_cons, if_neg (by simp; exact le_of_lt hxa'),
        List.dropWhile_cons, if_neg (by simp; exact le_of_lt hxa')]
      simp only [List.nil_append, List.orderedInsert]
      rw [if_neg (by exact fun h => absurd (lt_of_lt_of_le hxa' h) (lt_irrefl x)),
        orderedInsert_eq_cons (fun b hb => le_of_lt (ha b hb))]

/-- In a sorted list containing `x`, dropping everything strictly below `x`
lands exactly on `x`. -/
theorem dropWhile_head_of_mem {l : List XTime} (hs : l.Sorted (· < ·)) {x : XTime}
    (hx : x ∈ l) :
    ∃ B, l.dropWhile (fun o => decide (o < x)) = x :: B := by
  have hxt : x ∉ l.takeWhile (fun o => decide (o < x)) := by
    intro h
    exact absurd (by simpa using List.mem_takeWhile_imp h) (lt_irrefl x)
  have hxd : x ∈ l.dropWhile (fun o => decide (o < x)) := by
    have := List.takeWhile_append_dropWhile (fun o => decide (o < x)) l
    rcases List.mem_append.mp (by rw [this]; exact hx) with h | h
    · exact absurd h hxt
    · exact h
  cases hdw : l.dropWhile (fun o => decide (o < x)) with
  | nil => rw [hdw] at hxd; simp at hxd
  | cons b B =>
    have hbge : x ≤ b := dropWhile_ge_of_sorted hs b (by rw [hdw]; simp)
    rcases List.mem_cons.mp (hdw ▸ hxd) with rfl | hxB
    · exact ⟨B, rfl⟩
    · have hsd : (b :: B).Sorted (· < ·) := by
        rw [← hdw]
        exact List.Pairwise.sublist (List.dropWhile_sublist _) hs
      have := (List.sorted_cons.mp hsd).1 x hxB
      exact absurd (lt_of_le_of_lt hbge this) (lt_irrefl x)

/-- `_find_state_at(x, clone_if_missing=True)` at a fresh offset `x` of a
well-formed session: it clones the state at the greatest strictly-smaller
offset (whose tree the clone inherits, so the clone has a tree and empty
start sets) and splices `x` into the sorted offset list at its position. -/
theorem findStateAtClone_missing_spec {s : Session} (wf : SessionWF s) {x : XTime}
    (hnm : x ∉ s.offsets) (hbot : (⊥ : XTime) < x) :
    ∃ sta : StateM,
      s.findStateAtClone x =
        (sta.clone x,
          { s with
            states := updateAssoc s.states x (sta.clone x)
            offsets := s.offsets.takeWhile (fun o => decide (o < x)) ++
              x :: s.offsets.dropWhile (fun o => decide (o < x)) })
      ∧ (sta.clone x).startNodes = []
      ∧ (sta.clone x).startBuffers = []
      ∧ (sta.clone x).nodesToChildren.isSome = true
      ∧ (sta.clone x).offset = x := by
  obtain ⟨hsort, hhead, hpres, hprops⟩ := wf
  have hnone : s.lookupState x = none :=
    lookupState_none_of_not_mem ⟨hsort, hhead, hpres, hprops⟩ hnm
  set T := s.offsets.takeWhile (fun o => decide (o < x)) with hT
  set D := s.offsets.dropWhile (fun o => decide (o < x)) with hD
  have hTD : s.offsets = T ++ D := (List.takeWhile_append_dropWhile _ _).symm
  have hTne : T ≠ [] := by
    cases hoff : s.offsets with
    | nil => rw [hoff] at hhead; simp at hhead
    | cons o rest =>
      have : o = ⊥ := by rw [hoff] at hhead; simpa using hhead
      subst this
      rw [hT, hoff, List.takeWhile_cons, if_pos (by simpa using hbot)]
      simp
  have hA : ∀ o ∈ T, o < x := takeWhile_lt_of_sorted
  have hBge : ∀ b ∈ D, x ≤ b := dropWhile_ge_of_sorted hsort
  rcases List.eq_nil_or_concat T with hTnil | ⟨A', a, hTa⟩
  · exact absurd hTnil hTne
  · rw [List.concat_eq_append] at hTa
    have hAB : s.offsets = A' ++ a :: D := by rw [hTD, hTa]; simp
    have haT : a ∈ T := by rw [hTa]; simp
    have haoff : a ∈ s.offsets := hTD ▸ List.mem_append_left D haT
    have hapre := hpres _ haoff
    cases hsta : s.lookupState a with
    | none => rw [hsta] at hapre; simp at hapre
    | some sta =>
      have hstaprops := SessionWF.lookup_props ⟨hsort, hhead, hpres, hprops⟩ hsta
      have hfsb : s.findStateBefore x true = some sta :=
        findStateBefore_spec hAB (hTa ▸ hA) hBge hsta true (fun _ => hstaprops.2.2)
      have hne : ¬ x = sta.offset := by
        rw [hstaprops.2.1]
        exact fun h => absurd (hA a haT) (h ▸ lt_irrefl x)
      have hTnodup : T.Nodup :=
        (List.Pairwise.sublist (List.takeWhile_sublist _) hsort).nodup
      have haA' : a ∉ A' := by
        rw [hTa] at hTnodup
        have := List.nodup_append.mp hTnodup
        intro hmem'
        exact this.2.2 hmem' (by simp)
      have hidxa : s.offsets.indexOf a = A'.length := by
        rw [hAB, List.indexOf_append_of_not_mem haA', List.indexOf_cons_self]
        omega
      have hoffs' :
          s.offsets.insertIdx (s.offsets.indexOf sta.offset + 1) x = T ++ x :: D := by
        rw [hstaprops.2.1, hidxa]
        have : A'.length + 1 = (A' ++ [a]).length := by simp
        rw [this]
        have hgrp : s.offsets = (A' ++ [a]) ++ D := by rw [hAB]; simp
        rw [hgrp, insertIdx_append_length, hTa]
      refine ⟨sta, ?_, ?_, ?_, ?_, ?_⟩
      · simp only [Session.findStateAtClone, hnone, hfsb]
        rw [hoffs']
      · simp only [StateM.clone]; rw [if_neg hne]
      · simp only [StateM.clone]; rw [if_neg hne]
      · simp only [StateM.clone]
        rw [if_neg hne]
        exact hstaprops.2.2
      · simp only [StateM.clone]; rw [if_neg hne]

end NRT

namespace NRT

/-! ### Stability of the id mapping and settings under the duration splice -/

theorem foldl_congr_skip {α β : Type} (f g : β → α → β) (x : α) (A B : List α)
    (hfg : ∀ b : β, ∀ o ∈ A ++ B, f b o = g b o) (hx : ∀ b : β, f b x = b)
    (init : β) : (A ++ x :: B).foldl f init = (A ++ B).foldl g init := by
  induction A generalizing init with
  | nil =>
    rw [List.nil_append, List.nil_append, List.foldl_cons, hx]
    exact List.foldl_ext f g init (fun b o ho => hfg b o (by simpa using ho))
  | cons a A ih =>
    rw [List.cons_append, List.cons_append, List.foldl_cons, List.foldl_cons,
      hfg init a (by simp)]
    exact ih (fun b o ho => hfg b o (by simp only [List.mem_append, List.mem_cons] at ho ⊢; tauto)) _

/-- Splicing in a state with no start nodes leaves the node id mapping
untouched. -/
theorem buildIdMappingForNodes_congr {s s' : Session} {x : XTime} {stD : StateM}
    (hstates : s'.states = updateAssoc s.states x stD)
    (hsn : stD.startNodes = [])
    {A B : List XTime}
    (hoff' : s'.offsets.drop 1 = A ++ x :: B)
    (hoff : s.offsets.drop 1 = A ++ B)
    (hAB : ∀ o ∈ A ++ B, o ≠ x) :
    buildIdMappingForNodes s' = buildIdMappingForNodes s := by
  unfold buildIdMappingForNodes
  rw [hoff', hoff]
  rw [foldl_congr_skip (nodeIdOffsetStep s') (nodeIdOffsetStep s) x A B ?_ ?_]
  · intro b o ho
    unfold nodeIdOffsetStep Session.lookupState
    rw [hstates, lookupAssoc_updateAssoc_ne _ _ (hAB o ho)]
  · intro b
    unfold nodeIdOffsetStep Session.lookupState
    rw [hstates, lookupAssoc_updateAssoc_self]
    simp [hsn, sortNodesBySessionId, List.insertionSort]

theorem buildIdMapping_eq_of {s s' : Session}
    (hbuf : s'.buffers = s.buffers) (hbus : s'.buses = s.buses)
    (hin : s'.inputCount = s.inputCount) (hout : s'.outputCount = s.outputCount)
    (hnodes : buildIdMappingForNodes s' = buildIdMappingForNodes s) :
    buildIdMapping s' = buildIdMapping s := by
  unfold buildIdMapping buildIdMappingForBuffers buildIdMappingForBuses
  rw [hbuf, hbus, hin, hout, hnodes]

theorem collectBufferSettings_congr {s s' : Session} (h : s'.buffers = s.buffers)
    (m : IdMap) : collectBufferSettings s' m = collectBufferSettings s m := by
  unfold collectBufferSettings
  rw [h]

theorem collectBusSettings_congr {s s' : Session} (h : s'.buses = s.buses)
    (m : IdMap) : collectBusSettings s' m = collectBusSettings s m := by
  unfold collectBusSettings
  rw [h]

/-- `_to_non_xrefd_request_bundles` with an explicit nonzero duration, with
the let-bound intermediates resolved. -/
theorem toBundles_some_eq (s : Session) (d : ℚ) (hd : ¬ d = 0) :
    s.toBundles (some d) =
      bundleLoop
        { bufferSettings := collectBufferSettings s (buildIdMapping s)
          busSettings := collectBusSettings s (buildIdMapping s)
          duration := d
          idMap := buildIdMapping s } s [] []
        (if (s.offsets.drop 1).contains (xfin d) then s.offsets.drop 1
         else ((s.offsets.drop 1) ++ [xfin d]).insertionSort (fun a b => a ≤ b)) := by
  simp only [Session.toBundles]
  rw [if_neg hd]

end NRT

namespace NRT

/-- The compile environment `_to_non_xrefd_request_bundles` builds for a
session and a resolved duration. -/
def compileEnvOf (s : Session) (d : ℚ) : CompileEnv :=
  { bufferSettings := collectBufferSettings s (buildIdMapping s)
    busSettings := collectBusSettings s (buildIdMapping s)
    duration := d
    idMap := buildIdMapping s }

theorem toBundles_some_eq' (s : Session) (d : ℚ) (hd : ¬ d = 0) :
    s.toBundles (some d) =
      bundleLoop (compileEnvOf s d) s [] []
        (if (s.offsets.drop 1).contains (xfin d) then s.offsets.drop 1
         else ((s.offsets.drop 1) ++ [xfin d]).insertionSort (fun a b => a ≤ b)) :=
  toBundles_some_eq s d hd

/-- When the duration offset is absent from the timeline, compiling clones a
state in at the duration offset but changes nothing else: the id mapping is
unchanged and recompiling the mutated session reproduces the same result. -/
theorem toBundles_stable_missing_aux
    (s s2 : Session) (d : ℚ) (hd : ¬ d = 0)
    (tl : List XTime) (hoff : s.offsets = ⊥ :: tl)
    (hsort_tl : tl.Sorted (· < ·)) (hmem : xfin d ∉ tl)
    (stD : StateM) (t : List (Node × List Node))
    (hclone : s.findStateAtClone (xfin d) = (stD, s2))
    (hbuf : s2.buffers = s.buffers) (hnod : s2.nodes = s.nodes)
    (hbus : s2.buses = s.buses) (hic : s2.inputCount = s.inputCount)
    (hoc : s2.outputCount = s.outputCount)
    (hst2 : s2.states = updateAssoc s.states (xfin d) stD)
    (hoffs2 : s2.offsets = ⊥ ::
        (tl.takeWhile (fun o => decide (o < xfin d)) ++
          xfin d :: tl.dropWhile (fun o => decide (o < xfin d))))
    (hsn : stD.startNodes = [])
    (htD : stD.nodesToChildren = some t)
    (hP : ∀ o ∈ tl, ∃ st t', s.lookupState o = some st
        ∧ st.nodesToChildren = some t') :
    buildIdMapping (s.toBundles (some d)).2 = buildIdMapping s
    ∧ (s.toBundles (some d)).2.toBundles (some d) = s.toBundles (some d) := by
  have hdrop1 : s.offsets.drop 1 = tl := by rw [hoff]; rfl
  have hdrop2 : s2.offsets.drop 1 =
      tl.takeWhile (fun o => decide (o < xfin d)) ++
        xfin d :: tl.dropWhile (fun o => decide (o < xfin d)) := by rw [hoffs2]; rfl
  have h'x : s2.lookupState (xfin d) = some stD := by
    unfold Session.lookupState
    rw [hst2]
    exact lookupAssoc_updateAssoc_self _ _ _
  have hlookne : ∀ o : XTime, o ≠ xfin d → s2.lookupState o = s.lookupState o := by
    intro o hne
    unfold Session.lookupState
    rw [hst2]
    exact lookupAssoc_updateAssoc_ne _ _ hne
  have htlne : ∀ o ∈ tl, o ≠ xfin d := fun o ho he => hmem (he ▸ ho)
  have hidm : buildIdMapping s2 = buildIdMapping s := by
    refine buildIdMapping_eq_of hbuf hbus hic hoc ?_
    refine buildIdMappingForNodes_congr hst2 hsn hdrop2 ?_ ?_
    · rw [hdrop1]
      exact (List.takeWhile_append_dropWhile _ _).symm
    · intro o ho
      rw [List.takeWhile_append_dropWhile] at ho
      exact htlne o ho
  have hins : ((s.offsets.drop 1) ++ [xfin d]).insertionSort (fun a b => a ≤ b) =
      tl.takeWhile (fun o => decide (o < xfin d)) ++
        xfin d :: tl.dropWhile (fun o => decide (o < xfin d)) := by
    rw [hdrop1]
    exact insertionSort_append_single hsort_tl hmem
  have hncont : ¬ ((s.offsets.drop 1).contains (xfin d) = true) := by
    rw [hdrop1]
    simp [hmem]
  have hcont2 : (s2.offsets.drop 1).contains (xfin d) = true := by
    rw [hdrop2]
    simp
  have hside : ∀ o ∈ tl.takeWhile (fun o => decide (o < xfin d)),
      o ≠ xfin d ∧ ∃ st t', s.lookupState o = some st
        ∧ st.nodesToChildren = some t' ∧ s2.lookupState o = some st := by
    intro o ho
    have hot : o ∈ tl := (List.takeWhile_sublist _).mem ho
    obtain ⟨st, t', hst, ht'⟩ := hP o hot
    exact ⟨htlne o hot, st, t', hst, ht',
      by rw [hlookne o (htlne o hot)]; exact hst⟩
  have hall2 : ∀ o ∈ tl.takeWhile (fun o => decide (o < xfin d)) ++
      xfin d :: tl.dropWhile (fun o => decide (o < xfin d)),
      ∃ st t', s2.lookupState o = some st ∧ st.nodesToChildren = some t' := by
    intro o ho
    rcases List.mem_append.mp ho with hoT | hoD
    · have hot : o ∈ tl := (List.takeWhile_sublist _).mem hoT
      obtain ⟨st, t', hst, ht'⟩ := hP o hot
      exact ⟨st, t', by rw [hlookne o (htlne o hot)]; exact hst, ht'⟩
    · rcases List.mem_cons.mp hoD with rfl | hoD'
      · exact ⟨stD, t, h'x, htD⟩
      · have hot : o ∈ tl := (List.dropWhile_sublist _).mem hoD'
        obtain ⟨st, t', hst, ht'⟩ := hP o hot
        exact ⟨st, t', by rw [hlookne o (htlne o hot)]; exact hst, ht'⟩
  have hagree : bundleLoop (compileEnvOf s d) s [] []
        (tl.takeWhile (fun o => decide (o < xfin d)) ++
          xfin d :: tl.dropWhile (fun o => decide (o < xfin d))) =
      bundleLoop (compileEnvOf s d) s2 [] []
        (tl.takeWhile (fun o => decide (o < xfin d)) ++
          xfin d :: tl.dropWhile (fun o => decide (o < xfin d))) :=
    bundleLoop_missing_agree (compileEnvOf s d) hclone h'x htD rfl hbuf hnod
      _ [] [] _ hside
  have hloop2 : (bundleLoop (compileEnvOf s d) s2 [] []
      (tl.takeWhile (fun o => decide (o < xfin d)) ++
        xfin d :: tl.dropWhile (fun o => decide (o < xfin d)))).2 = s2 :=
    bundleLoop_all_present (compileEnvOf s d) _ s2 [] [] hall2
  have hfirst : s.toBundles (some d) =
      bundleLoop (compileEnvOf s d) s [] []
        (tl.takeWhile (fun o => decide (o < xfin d)) ++
          xfin d :: tl.dropWhile (fun o => decide (o < xfin d))) := by
    rw [toBundles_some_eq' s d hd, if_neg hncont, hins]
  have henvEq : compileEnvOf s2 d = compileEnvOf s d := by
    unfold compileEnvOf
    rw [hidm, collectBufferSettings_congr hbuf, collectBusSettings_congr hbus]
  have hsecond : s2.toBundles (some d) =
      bundleLoop (compileEnvOf s d) s2 [] []
        (tl.takeWhile (fun o => decide (o < xfin d)) ++
          xfin d :: tl.dropWhile (fun o => decide (o < xfin d))) := by
    rw [toBundles_some_eq' s2 d hd, if_pos hcont2, hdrop2, henvEq]
  constructor
  · rw [hfirst, hagree, hloop2, hidm]
  · rw [hfirst, hagree, hloop2, hsecond]

end NRT

namespace NRT

/-- Compiling a well-formed session with a nonzero explicit duration leaves
the id mapping unchanged, and recompiling the returned (possibly mutated)
session reproduces the identical bundle list and session. -/
theorem toBundles_stable (s : Session) (wf : SessionWF s) (d : ℚ) (hd : ¬ d = 0) :
    buildIdMapping (s.toBundles (some d)).2 = buildIdMapping s
    ∧ (s.toBundles (some d)).2.toBundles (some d) = s.toBundles (some d) := by
  obtain ⟨tl, hoff⟩ : ∃ tl, s.offsets = ⊥ :: tl := by
    have hhead := wf.2.1
    cases hoffc : s.offsets with
    | nil => rw [hoffc] at hhead; simp at hhead
    | cons o rest =>
      rw [hoffc] at hhead
      simp at hhead
      exact ⟨rest, by rw [hhead]⟩
  have hdrop1 : s.offsets.drop 1 = tl := by rw [hoff]; rfl
  have hsort_tl : tl.Sorted (· < ·) := by
    have hsort := wf.1
    rw [hoff] at hsort
    exact (List.sorted_cons.mp hsort).2
  have hP : ∀ o ∈ tl, ∃ st t', s.lookupState o = some st
      ∧ st.nodesToChildren = some t' := by
    intro o ho
    have hos : o ∈ s.offsets := by rw [hoff]; exact List.mem_cons_of_mem _ ho
    have hsome := wf.2.2.1 o hos
    cases hst : s.lookupState o with
    | none => rw [hst] at hsome; simp at hsome
    | some st =>
      obtain ⟨t', ht'⟩ := Option.isSome_iff_exists.mp (wf.lookup_props hst).2.2
      exact ⟨st, t', rfl, ht'⟩
  by_cases hmem : xfin d ∈ tl
  · have hcont : (s.offsets.drop 1).contains (xfin d) = true := by
      rw [hdrop1]
      rcases List.append_of_mem hmem with ⟨l₁, l₂, h⟩
      rw [h]
      simp
    have hall : ∀ o ∈ s.offsets.drop 1, ∃ st t', s.lookupState o = some st
        ∧ st.nodesToChildren = some t' := by
      rw [hdrop1]
      exact hP
    have hfix := bundleLoop_all_present (compileEnvOf s d) (s.offsets.drop 1) s [] [] hall
    have hfirst : s.toBundles (some d) =
        bundleLoop (compileEnvOf s d) s [] [] (s.offsets.drop 1) := by
      rw [toBundles_some_eq' s d hd, if_pos hcont]
    constructor
    · rw [hfirst, hfix]
    · rw [hfirst, hfix]
      exact hfirst
  · have hnm : xfin d ∉ s.offsets := by
      rw [hoff]
      intro h
      rcases List.mem_cons.mp h with hb | h'
      · exact (by simp [xfin] : xfin d ≠ ⊥) hb
      · exact hmem h'
    obtain ⟨sta, hclone, hsn, hsb, hts, hofD⟩ :=
      findStateAtClone_missing_spec wf hnm (bot_lt_xfin d)
    obtain ⟨t, htD⟩ := Option.isSome_iff_exists.mp hts
    have htk : s.offsets.takeWhile (fun o => decide (o < xfin d)) =
        ⊥ :: tl.takeWhile (fun o => decide (o < xfin d)) := by
      rw [hoff, List.takeWhile_cons, if_pos (by simp)]
    have hdk : s.offsets.dropWhile (fun o => decide (o < xfin d)) =
        tl.dropWhile (fun o => decide (o < xfin d)) := by
      rw [hoff, List.dropWhile_cons, if_pos (by simp)]
    refine toBundles_stable_missing_aux s _ d hd tl hoff hsort_tl hmem
      (sta.clone (xfin d)) t hclone rfl rfl rfl rfl rfl rfl ?_ hsn htD hP
    show s.offsets.takeWhile (fun o => decide (o < xfin d)) ++
        xfin d :: s.offsets.dropWhile (fun o => decide (o < xfin d)) = _
    rw [htk, hdk, List.cons_append]

end NRT

namespace NRT

/-- C1: compilation is deterministic.  For a well-formed session and a nonzero
explicit render duration, invoking `_to_non_xrefd_request_bundles` a second
time (on the session as the first invocation left it, with the same duration)
yields the same bundle sequence — same bundles, same timestamps, same
intra-bundle request order — and the same resulting session, and invoking
`_build_id_mapping` again after the first compilation yields the identical
object-to-integer id mapping. -/
theorem toBundles_deterministic (s : Session) (wf : SessionWF s) (d : ℚ)
    (hd : ¬ d = 0) :
    ((s.toBundles (some d)).2.toBundles (some d)).1 = (s.toBundles (some d)).1
    ∧ ((s.toBundles (some d)).2.toBundles (some d)).2 = (s.toBundles (some d)).2
    ∧ buildIdMapping (s.toBundles (some d)).2 = buildIdMapping s := by
  have h := toBundles_stable s wf d hd
  exact ⟨by rw [h.2], by rw [h.2], h.1⟩

/-- Witness for C1: a fresh session compiled twice at duration 1. -/
theorem toBundles_deterministic_witness :
    SessionWF (initialSession 0 0)
    ∧ ((((initialSession 0 0).toBundles (some 1)).2.toBundles (some 1)).1 =
          ((initialSession 0 0).toBundles (some 1)).1
        ∧ (((initialSession 0 0).toBundles (some 1)).2.toBundles (some 1)).2 =
          ((initialSession 0 0).toBundles (some 1)).2
        ∧ buildIdMapping ((initialSession 0 0).toBundles (some 1)).2 =
          buildIdMapping (initialSession 0 0)) :=
  ⟨⟨by decide, by decide, by decide, by decide⟩,
    toBundles_deterministic (initialSession 0 0)
      ⟨by decide, by decide, by decide, by decide⟩ 1 (by decide)⟩

/-- C5: id stability under truncation.  Compiling a well-formed session whose
start nodes are never the root leaves the id mapping unchanged for any nonzero
render duration, so any two durations `d1`, `d2` yield the identical mapping
for every object; moreover the root node maps to 0, every start node maps to
its own logical session id, and every buffer (whose group, if any, lists it)
maps to its own logical session id — all independent of the duration. -/
theorem idMapping_stable_under_truncation (s : Session) (wf : SessionWF s)
    (hnr : ∀ p ∈ s.states, ∀ n ∈ p.2.startNodes, n.isRoot = false)
    (d1 d2 : ℚ) (h1 : ¬ d1 = 0) (h2 : ¬ d2 = 0) :
    buildIdMapping (s.toBundles (some d1)).2 =
        buildIdMapping (s.toBundles (some d2)).2
    ∧ lookupAssoc (buildIdMapping s) Entity.root = some 0
    ∧ (∀ (o : XTime) (st : StateM) (n : Node), o ∈ s.offsets.drop 1 →
        s.lookupState o = some st → n ∈ st.startNodes → n.isRoot = false →
        lookupAssoc (buildIdMapping s) (Entity.node n.sessionId) =
          some n.sessionId)
    ∧ (∀ b ∈ s.buffers,
        (∀ gid members, b.bufferGroup = some (gid, members) →
            b.sessionId ∈ members) →
        lookupAssoc (buildIdMapping s) (Entity.buffer b.sessionId) =
          some b.sessionId) := by
  refine ⟨?_, buildIdMapping_root s hnr, ?_, ?_⟩
  · rw [(toBundles_stable s wf d1 h1).1, (toBundles_stable s wf d2 h2).1]
  · intro o st n ho hst hn hroot
    exact buildIdMapping_node s hnr ho hst hn hroot
  · intro b hb hgrp
    exact buildIdMapping_buffer s hnr hb hgrp

/-- Witness for C5: a fresh session at durations 1 and 2. -/
theorem idMapping_stable_under_truncation_witness :
    (SessionWF (initialSession 0 0)
      ∧ ∀ p ∈ (initialSession 0 0).states, ∀ n ∈ p.2.startNodes,
          n.isRoot = false)
    ∧ (buildIdMapping ((initialSession 0 0).toBundles (some 1)).2 =
          buildIdMapping ((initialSession 0 0).toBundles (some 2)).2
        ∧ lookupAssoc (buildIdMapping (initialSession 0 0)) Entity.root = some 0
        ∧ (∀ (o : XTime) (st : StateM) (n : Node),
            o ∈ (initialSession 0 0).offsets.drop 1 →
            (initialSession 0 0).lookupState o = some st →
            n ∈ st.startNodes → n.isRoot = false →
            lookupAssoc (buildIdMapping (initialSession 0 0))
              (Entity.node n.sessionId) = some n.sessionId)
        ∧ (∀ b ∈ (initialSession 0 0).buffers,
            (∀ gid members, b.bufferGroup = some (gid, members) →
                b.sessionId ∈ members) →
            lookupAssoc (buildIdMapping (initialSession 0 0))
              (Entity.buffer b.sessionId) = some b.sessionId)) :=
  ⟨⟨⟨by decide, by decide, by decide, by decide⟩, by decide⟩,
    idMapping_stable_under_truncation (initialSession 0 0)
      ⟨by decide, by decide, by decide, by decide⟩ (by decide) 1 2
      (by decide) (by decide)⟩

end NRT

namespace NRT

theorem toRatD_le_of_lt_xfin {o : XTime} {d : ℚ} (hbot : (⊥ : XTime) < o)
    (hlt : o < xfin d) : o.toRatD 0 ≤ d := by
  induction o using WithBot.recBotCoe with
  | bot => exact absurd hbot (lt_irrefl _)
  | coe w =>
    induction w using WithTop.recTopCoe with
    | top => simp [xfin] at hlt
    | coe q =>
      have hq : q < d := by simpa [xfin] using hlt
      simpa [xfin, XTime.toRatD] using le_of_lt hq

/-- The bundle loop always reaches the duration offset, emits there a bundle
timestamped with the duration whose final request is the no-op sentinel, stops
there, and never stamps a bundle beyond the duration. -/
theorem bundleLoop_sentinel (env : CompileEnv) :
    ∀ (P : List XTime) (s : Session) (bos : BufferOpenStates)
      (vis : List SynthDefM) (rest : List XTime),
    (∀ o ∈ P, ¬ o = xfin env.duration ∧ o.toRatD 0 ≤ env.duration) →
    ∃ b : Bundle,
      (bundleLoop env s bos vis (P ++ xfin env.duration :: rest)).1.getLast? =
          some b
      ∧ b.timestamp = env.duration
      ∧ b.contents.getLast? = some Request.nothing
      ∧ ∀ b' ∈ (bundleLoop env s bos vis (P ++ xfin env.duration :: rest)).1,
          b'.timestamp ≤ env.duration := by
  intro P
  induction P with
  | nil =>
    intro s bos vis rest _
    simp only [List.nil_append, bundleLoop, if_true]
    have hie : ¬ (((s.collectRequestsAtOffset env bos
        (decide True) (xfin env.duration)
        vis).1 ++ [Request.nothing]).isEmpty = true) := by
      simp [List.isEmpty_iff]
    rw [if_neg hie]
    refine ⟨⟨XTime.toRatD 0 (xfin env.duration),
      (s.collectRequestsAtOffset env bos
        (decide True) (xfin env.duration)
        vis).1 ++ [Request.nothing]⟩, by simp, by simp, ?_, ?_⟩
    · show ((s.collectRequestsAtOffset env bos
        (decide True) (xfin env.duration)
        vis).1 ++ [Request.nothing]).getLast? = some Request.nothing
      rw [List.getLast?_append_cons]
      rfl
    · intro b' hb'
      simp only [List.mem_singleton] at hb'
      rw [hb']
      simp
  | cons o P ih =>
    intro s bos vis rest hP
    have hne : ¬ (o = xfin env.duration) := (hP o (by simp)).1
    have hle : o.toRatD 0 ≤ env.duration := (hP o (by simp)).2
    simp only [List.cons_append, bundleLoop]
    simp only [if_neg hne, List.append_nil, List.append_eq]
    obtain ⟨b, hlast, hts, hcont, hall⟩ :=
      ih _ _ _ rest (fun o' ho' => hP o' (by simp [ho']))
    have hmne : (bundleLoop env
        (s.collectRequestsAtOffset env bos (decide (o = xfin env.duration)) o
          vis).2.1
        (s.collectRequestsAtOffset env bos (decide (o = xfin env.duration)) o
          vis).2.2.1
        (s.collectRequestsAtOffset env bos (decide (o = xfin env.duration)) o
          vis).2.2.2 (P ++ xfin env.duration :: rest)).1 ≠ [] := by
      intro h
      rw [h] at hlast
      simp at hlast
    refine ⟨b, ?_, hts, hcont, ?_⟩
    · rw [List.getLast?_append_of_ne_nil _ hmne]
      exact hlast
    · intro b' hb'
      rcases List.mem_append.mp hb' with hbl | hbr
      · by_cases hie : (s.collectRequestsAtOffset env bos
            (decide (o = xfin env.duration)) o vis).1.isEmpty = true
        · rw [if_pos hie] at hbl
          simp at hbl
        · rw [if_neg hie] at hbl
          simp only [List.mem_singleton] at hbl
          rw [hbl]
          exact hle
      · exact hall b' hbr

end NRT

namespace NRT

/-- C7: linearizer termination and sentinel.  For every compile of a
well-formed session at a finite positive duration, the bundle list ends in a
bundle stamped exactly at the render duration whose final request is the no-op
sentinel `NothingRequest`; no emitted bundle is stamped after the duration,
and the duration offset is processed (the sentinel bundle exists) even when it
was not already a breakpoint of the session. -/
theorem toBundles_sentinel (s : Session) (wf : SessionWF s) (d : ℚ)
    (hd : 0 < d) :
    ∃ b : Bundle,
      (s.toBundles (some d)).1.getLast? = some b
      ∧ b.timestamp = d
      ∧ b.contents.getLast? = some Request.nothing
      ∧ ∀ b' ∈ (s.toBundles (some d)).1, b'.timestamp ≤ d := by
  have hd0 : ¬ d = 0 := by
    intro h
    rw [h] at hd
    exact lt_irrefl 0 hd
  obtain ⟨tl, hoff⟩ : ∃ tl, s.offsets = ⊥ :: tl := by
    have hhead := wf.2.1
    cases hoffc : s.offsets with
    | nil => rw [hoffc] at hhead; simp at hhead
    | cons o rest =>
      rw [hoffc] at hhead
      simp at hhead
      exact ⟨rest, by rw [hhead]⟩
  have hdrop1 : s.offsets.drop 1 = tl := by rw [hoff]; rfl
  have hsort := wf.1
  rw [hoff] at hsort
  rcases List.sorted_cons.mp hsort with ⟨hbot, hsort_tl⟩
  have hcond : ∀ o ∈ tl.takeWhile (fun o => decide (o < xfin d)),
      ¬ o = xfin d ∧ XTime.toRatD 0 o ≤ d := by
    intro o ho
    have holt : o < xfin d := by simpa using List.mem_takeWhile_imp ho
    have hom : o ∈ tl := (List.takeWhile_sublist _).mem ho
    exact ⟨fun h => absurd holt (h ▸ lt_irrefl _),
      toRatD_le_of_lt_xfin (hbot o hom) holt⟩
  by_cases hmem : xfin d ∈ tl
  · obtain ⟨B, hB⟩ := dropWhile_head_of_mem hsort_tl hmem
    have hsplit : tl =
        tl.takeWhile (fun o => decide (o < xfin d)) ++ xfin d :: B := by
      have h := (List.takeWhile_append_dropWhile
        (fun o => decide (o < xfin d)) tl).symm
      rw [hB] at h
      exact h
    have hcont : (s.offsets.drop 1).contains (xfin d) = true := by
      rw [hdrop1]
      rcases List.append_of_mem hmem with ⟨l₁, l₂, h⟩
      rw [h]
      simp
    have hfirst : s.toBundles (some d) =
        bundleLoop (compileEnvOf s d) s [] []
          (tl.takeWhile (fun o => decide (o < xfin d)) ++ xfin d :: B) := by
      rw [toBundles_some_eq' s d hd0, if_pos hcont, hdrop1, ← hsplit]
    obtain ⟨b, h1, h2, h3, h4⟩ := bundleLoop_sentinel (compileEnvOf s d)
      (tl.takeWhile (fun o => decide (o < xfin d))) s [] [] B hcond
    refine ⟨b, ?_, h2, h3, ?_⟩
    · rw [hfirst]
      exact h1
    · intro b' hb'
      rw [hfirst] at hb'
      exact h4 b' hb'
  · have hncont : ¬ ((s.offsets.drop 1).contains (xfin d) = true) := by
      rw [hdrop1]
      simp [hmem]
    have hins : ((s.offsets.drop 1) ++ [xfin d]).insertionSort
        (fun a b => a ≤ b) =
        tl.takeWhile (fun o => decide (o < xfin d)) ++
          xfin d :: tl.dropWhile (fun o => decide (o < xfin d)) := by
      rw [hdrop1]
      exact insertionSort_append_single hsort_tl hmem
    have hfirst : s.toBundles (some d) =
        bundleLoop (compileEnvOf s d) s [] []
          (tl.takeWhile (fun o => decide (o < xfin d)) ++
            xfin d :: tl.dropWhile (fun o => decide (o < xfin d))) := by
      rw [toBundles_some_eq' s d hd0, if_neg hncont, hins]
    obtain ⟨b, h1, h2, h3, h4⟩ := bundleLoop_sentinel (compileEnvOf s d)
      (tl.takeWhile (fun o => decide (o < xfin d))) s [] []
      (tl.dropWhile (fun o => decide (o < xfin d))) hcond
    refine ⟨b, ?_, h2, h3, ?_⟩
    · rw [hfirst]
      exact h1
    · intro b' hb'
      rw [hfirst] at hb'
      exact h4 b' hb'

/-- Witness for C7: a fresh session compiled at duration 2 (not one of its
breakpoints). -/
theorem toBundles_sentinel_witness :
    SessionWF (initialSession 0 0)
    ∧ (0 : ℚ) < 2
    ∧ ∃ b : Bundle,
        ((initialSession 0 0).toBundles (some 2)).1.getLast? = some b
        ∧ b.timestamp = 2
        ∧ b.contents.getLast? = some Request.nothing
        ∧ ∀ b' ∈ ((initialSession 0 0).toBundles (some 2)).1,
            b'.timestamp ≤ 2 :=
  ⟨⟨by decide, by decide, by decide, by decide⟩, by norm_num,
    toBundles_sentinel (initialSession 0 0)
      ⟨by decide, by decide, by decide, by decide⟩ 2 (by norm_num)⟩

end NRT

namespace NRT

/-! ### Request categories of the per-offset emission order (C2) -/

/-- Category 1: synthdef-receive. -/
def Request.isSynthdefReceive : Request → Bool
  | Request.synthdefReceive _ => true
  | _ => false

/-- Category 2: buffer allocation (plain, read, or read-channels variants). -/
def Request.isBufferAllocate : Request → Bool
  | Request.bufferAllocate _ _ _ => true
  | Request.bufferAllocateRead _ _ => true
  | Request.bufferAllocateReadChannel _ _ _ => true
  | _ => false

/-- Category 3: buffer post-allocation operations (plus the close requests
the collector injects before re-reading a buffer left open). -/
def Request.isBufferPostAlloc : Request → Bool
  | Request.bufferRead _ _ => true
  | Request.bufferReadChannel _ _ _ => true
  | Request.bufferZero _ => true
  | Request.bufferFill _ => true
  | Request.bufferGenerate _ => true
  | Request.bufferSet _ => true
  | Request.bufferSetContiguous _ => true
  | Request.bufferNormalize _ => true
  | Request.bufferCopy _ => true
  | Request.bufferClose _ => true
  | _ => false

/-- Category 4: node-tree transition requests. -/
def Request.isNodeAction : Request → Bool
  | Request.synthNew _ _ _ _ _ => true
  | Request.groupNew _ _ _ => true
  | Request.nodeMove _ _ _ => true
  | _ => false

/-- Category 5: control-bus value set. -/
def Request.isControlBusSet : Request → Bool
  | Request.controlBusSet _ => true
  | _ => false

/-- Category 6: node parameter set / map requests. -/
def Request.isNodeSetOrMap : Request → Bool
  | Request.nodeSet _ _ => true
  | Request.nodeMapToAudioBus _ _ => true
  | Request.nodeMapToControlBus _ _ => true
  | _ => false

/-- Category 7: node frees and gate-offs. -/
def Request.isNodeFreeOrGateOff : Request → Bool
  | Request.nodeFree _ => true
  | Request.nodeSet _ settings => settings = [("gate", (0 : ℚ))]
  | _ => false

/-- Category 8: buffer writes (plus injected closes). -/
def Request.isBufferWriteOrClose : Request → Bool
  | Request.bufferWrite _ _ => true
  | Request.bufferClose _ => true
  | _ => false

/-- Category 9: buffer closes and frees. -/
def Request.isBufferCloseOrFree : Request → Bool
  | Request.bufferClose _ => true
  | Request.bufferFree _ => true
  | _ => false

/-- Does a compiled request belong to a buffer-settings slot keyed by this
original event type?  A read event with explicit channel indices compiles to a
read-channels request but stays filed under the read slot. -/
def reqMatchesOp : BufOp → Request → Bool
  | BufOp.read, Request.bufferRead _ _ => true
  | BufOp.read, Request.bufferReadChannel _ _ _ => true
  | BufOp.readChannel, Request.bufferReadChannel _ _ _ => true
  | BufOp.zero, Request.bufferZero _ => true
  | BufOp.fill, Request.bufferFill _ => true
  | BufOp.generate, Request.bufferGenerate _ => true
  | BufOp.setB, Request.bufferSet _ => true
  | BufOp.setContiguous, Request.bufferSetContiguous _ => true
  | BufOp.normalize, Request.bufferNormalize _ => true
  | BufOp.copy, Request.bufferCopy _ => true
  | BufOp.write, Request.bufferWrite _ _ => true
  | _, _ => false

/-- Well-formedness of a `buffer_settings` mapping: every request filed under
an offset and an event type has the shape that event type compiles to. -/
def BufferSettingsWF (bs : BufferSettings) : Prop :=
  ∀ p ∈ bs, ∀ q ∈ p.2, ∀ r ∈ q.2, reqMatchesOp q.1 r = true

theorem mem_of_lookupAssoc {α β : Type} [DecidableEq α] {l : List (α × β)}
    {k : α} {v : β} (h : lookupAssoc l k = some v) : ∃ p ∈ l, p.1 = k ∧ p.2 = v := by
  unfold lookupAssoc at h
  cases hf : l.find? (fun p => p.1 = k) with
  | none => rw [hf] at h; simp at h
  | some p =>
    rw [hf] at h
    simp at h
    exact ⟨p, List.mem_of_find?_eq_some hf, by simpa using List.find?_some hf, h⟩

/-- Generic fold-membership lemma: if every step only appends requests
satisfying `P` to the first component, the fold's first component satisfies
`P` beyond its seed. -/
theorem foldl_pair_pred {α σ : Type} {P : Request → Prop}
    (f : (List Request × σ) → α → (List Request × σ)) :
    ∀ (l : List α) (acc : List Request × σ),
    (∀ (acc' : List Request × σ) (a : α), a ∈ l →
      ∀ r ∈ (f acc' a).1, r ∈ acc'.1 ∨ P r) →
    (∀ r ∈ acc.1, P r) → ∀ r ∈ (l.foldl f acc).1, P r := by
  intro l
  induction l with
  | nil => intro acc _ h; exact h
  | cons a l ih =>
    intro acc hf h
    refine ih _ (fun acc' a' ha' => hf acc' a' (by simp [ha'])) (fun r hr => ?_)
    rcases hf acc a (by simp) r hr with h' | h'
    · exact h r h'
    · exact h'

/-- As `foldl_pair_pred`, for folds whose accumulator is a bare request
list. -/
theorem foldl_list_pred {α : Type} {P : Request → Prop}
    (f : List Request → α → List Request) :
    ∀ (l : List α) (acc : List Request),
    (∀ (acc' : List Request) (a : α), a ∈ l →
      ∀ r ∈ f acc' a, r ∈ acc' ∨ P r) →
    (∀ r ∈ acc, P r) → ∀ r ∈ l.foldl f acc, P r := by
  intro l
  induction l with
  | nil => intro acc _ h; exact h
  | cons a l ih =>
    intro acc hf h
    refine ih _ (fun acc' a' ha' => hf acc' a' (by simp [ha'])) (fun r hr => ?_)
    rcases hf acc a (by simp) r hr with h' | h'
    · exact h r h'
    · exact h'

end NRT

namespace NRT

/-! ### Per-collector category content (C2) -/

theorem collectSynthdefRequests_pred (ns : List Node) (vis : List SynthDefM) :
    ∀ r ∈ (collectSynthdefRequests ns vis).1, r.isSynthdefReceive = true := by
  intro r hr
  simp only [collectSynthdefRequests] at hr
  obtain ⟨sd, _, rfl⟩ := List.mem_map.mp hr
  rfl

theorem collectBufferAllocateRequests_pred (bos : BufferOpenStates) (m : IdMap)
    (bufs : List BufferM) :
    ∀ r ∈ (collectBufferAllocateRequests bos m bufs).1, r.isBufferAllocate = true := by
  unfold collectBufferAllocateRequests
  refine foldl_pair_pred _ _ _ ?_ (by simp)
  intro acc b _ r hr
  dsimp only at hr
  rcases List.mem_append.mp hr with h | h
  · exact Or.inl h
  · right
    simp only [List.mem_singleton] at h
    subst h
    cases hfp : b.filePath with
    | none => simp only [hfp]; rfl
    | some fp =>
      cases hcc : b.channelCount <;> simp only [hfp, hcc] <;> rfl

theorem collectBusSetRequests_pred (bss : BusSettings) (off : XTime) :
    ∀ r ∈ collectBusSetRequests bss off, r.isControlBusSet = true := by
  intro r hr
  unfold collectBusSetRequests at hr
  cases hl : lookupAssoc bss off with
  | none => rw [hl] at hr; simp at hr
  | some pairs =>
    rw [hl] at hr
    simp only [List.mem_singleton] at hr
    subst hr
    rfl

theorem collectNodeActionRequests_pred (dur : ℚ) (m : IdMap)
    (trs : List Transition) (ns : List (Node × List (String × Value)))
    (sns : List Node) :
    ∀ r ∈ (collectNodeActionRequests dur m trs ns sns).1, r.isNodeAction = true := by
  unfold collectNodeActionRequests
  refine foldl_pair_pred _ _ _ ?_ (by simp)
  intro acc tr _ r hr
  dsimp only at hr
  by_cases hc : sns.contains tr.source = true
  · rw [if_pos hc] at hr
    cases hk : tr.source.kind with
    | synth sd kwargs =>
      simp only [hk] at hr
      rcases List.mem_append.mp hr with h | h
      · exact Or.inl h
      · right
        simp only [List.mem_singleton] at h
        subst h
        rfl
    | group =>
      simp only [hk] at hr
      rcases List.mem_append.mp hr with h | h
      · exact Or.inl h
      · right
        simp only [List.mem_singleton] at h
        subst h
        rfl
  · rw [if_neg hc] at hr
    rcases List.mem_append.mp hr with h | h
    · exact Or.inl h
    · right
      simp only [List.mem_singleton] at h
      subst h
      rfl

theorem mem_ite_nil_singleton {c : Prop} [Decidable c] {x r : Request}
    (h : r ∈ (if c then ([] : List Request) else [x])) : r = x := by
  by_cases hc : c
  · rw [if_pos hc] at h
    simp at h
  · rw [if_neg hc] at h
    simpa using h

theorem collectNodeSetRequests_pred (m : IdMap)
    (ns : List (Node × List (String × Value))) :
    ∀ r ∈ collectNodeSetRequests m ns, r.isNodeSetOrMap = true := by
  unfold collectNodeSetRequests
  refine foldl_list_pred _ _ _ ?_ (by simp)
  intro acc p _ r hr
  dsimp only at hr
  rcases List.mem_append.mp hr with h | h
  · rcases List.mem_append.mp h with h' | h'
    · rcases List.mem_append.mp h' with h'' | h''
      · exact Or.inl h''
      · refine Or.inr ?_
        rw [mem_ite_nil_singleton h'']
        rfl
    · refine Or.inr ?_
      rw [mem_ite_nil_singleton h']
      rfl
  · refine Or.inr ?_
    rw [mem_ite_nil_singleton h]
    rfl

theorem collectNodeFreeRequests_pred (m : IdMap) (stopNodes : List Node) :
    ∀ r ∈ collectNodeFreeRequests m stopNodes, r.isNodeFreeOrGateOff = true := by
  intro r hr
  unfold collectNodeFreeRequests at hr
  by_cases he : stopNodes.isEmpty = true
  · rw [if_pos he] at hr
    simp at hr
  · rw [if_neg he] at hr
    rcases List.mem_append.mp hr with h | h
    · rw [mem_ite_nil_singleton h]
      rfl
    · obtain ⟨nid, _, rfl⟩ := List.mem_map.mp h
      simp [Request.isNodeFreeOrGateOff]

theorem collectBufferFreeRequests_pred (bos : BufferOpenStates) (m : IdMap)
    (bufs : List BufferM) :
    ∀ r ∈ (collectBufferFreeRequests bos m bufs).1, r.isBufferCloseOrFree = true := by
  unfold collectBufferFreeRequests
  refine foldl_pair_pred _ _ _ ?_ (by simp)
  intro acc b _ r hr
  dsimp only at hr
  rcases List.mem_append.mp hr with h | h
  · rcases List.mem_append.mp h with h' | h'
    · exact Or.inl h'
    · refine Or.inr ?_
      by_cases ho : ((lookupAssoc acc.2 (lookupId m (Entity.buffer b.sessionId))).getD false) = true
      · rw [if_pos ho] at h'
        simp only [List.mem_singleton] at h'
        subst h'
        rfl
      · rw [if_neg ho] at h'
        simp at h'
  · refine Or.inr ?_
    simp only [List.mem_singleton] at h
    subst h
    rfl

end NRT

namespace NRT

theorem bufferOpenCloseStep_fold_chunk (rt : BufOp) :
    ∀ (brs : List Request) (acc : List Request × BufferOpenStates),
    (∀ r ∈ brs, reqMatchesOp rt r = true) →
    ∃ chunk : List Request,
      (brs.foldl bufferOpenCloseStep acc).1 = acc.1 ++ chunk
      ∧ ∀ r ∈ chunk, reqMatchesOp rt r = true ∨ ∃ bid, r = Request.bufferClose bid := by
  intro brs
  induction brs with
  | nil => intro acc _; exact ⟨[], by simp, by simp⟩
  | cons r brs ih =>
    intro acc hbrs
    obtain ⟨chunk, hc1, hc2⟩ :=
      ih (bufferOpenCloseStep acc r) (fun r' hr' => hbrs r' (by simp [hr']))
    refine ⟨((if (lookupAssoc acc.2 r.reqBufferId).getD false
        then [Request.bufferClose r.reqBufferId] else []) ++ [r]) ++ chunk, ?_, ?_⟩
    · rw [List.foldl_cons, hc1]
      show (bufferOpenCloseStep acc r).1 ++ chunk = _
      simp [bufferOpenCloseStep]
    · intro r' hr'
      rcases List.mem_append.mp hr' with h | h
      · rcases List.mem_append.mp h with h' | h'
        · refine Or.inr ⟨r.reqBufferId, ?_⟩
          by_cases hio : ((lookupAssoc acc.2 r.reqBufferId).getD false) = true
          · rw [if_pos hio] at h'
            simpa using h'
          · rw [if_neg hio] at h'
            simp at h'
        · have : r' = r := by simpa using h'
          exact Or.inl (this ▸ hbrs r (by simp))
      · exact hc2 r' h

theorem bufferNonlifecycleStep_chunk (settings : List (BufOp × List Request))
    (hwfS : ∀ q ∈ settings, ∀ r ∈ q.2, reqMatchesOp q.1 r = true)
    (acc : List Request × BufferOpenStates) (rt : BufOp) :
    ∃ chunk : List Request,
      (bufferNonlifecycleStep settings acc rt).1 = acc.1 ++ chunk
      ∧ ∀ r ∈ chunk, reqMatchesOp rt r = true ∨ ∃ bid, r = Request.bufferClose bid := by
  unfold bufferNonlifecycleStep
  cases hl : lookupAssoc settings rt with
  | none => exact ⟨[], by simp, by simp⟩
  | some brs =>
    have hbrs : ∀ r ∈ brs, reqMatchesOp rt r = true := by
      obtain ⟨q, hq, hq1, hq2⟩ := mem_of_lookupAssoc hl
      intro r hr
      rw [← hq1]
      exact hwfS q hq r (hq2 ▸ hr)
    cases brs with
    | nil => exact ⟨[], by simp, by simp⟩
    | cons r0 brs' =>
      dsimp only
      by_cases hrt : rt = BufOp.read ∨ rt = BufOp.readChannel ∨ rt = BufOp.write
      · rw [if_pos hrt]
        exact bufferOpenCloseStep_fold_chunk rt _ acc hbrs
      · rw [if_neg hrt]
        exact ⟨r0 :: brs', rfl, fun r hr => Or.inl (hbrs r hr)⟩

theorem nonlifecycle_fold_slots (settings : List (BufOp × List Request))
    (hwfS : ∀ q ∈ settings, ∀ r ∈ q.2, reqMatchesOp q.1 r = true) :
    ∀ (rts : List BufOp) (acc : List Request × BufferOpenStates),
    ∃ slots : List (List Request),
      slots.length = rts.length
      ∧ (rts.foldl (bufferNonlifecycleStep settings) acc).1 = acc.1 ++ slots.flatten
      ∧ ∀ pr ∈ rts.zip slots, ∀ r ∈ pr.2,
          reqMatchesOp pr.1 r = true ∨ ∃ bid, r = Request.bufferClose bid := by
  intro rts
  induction rts with
  | nil => intro acc; exact ⟨[], rfl, by simp, by simp⟩
  | cons rt rts ih =>
    intro acc
    obtain ⟨chunk, hch, hchP⟩ := bufferNonlifecycleStep_chunk settings hwfS acc rt
    obtain ⟨slots, hlen, hflat, hP⟩ := ih (bufferNonlifecycleStep settings acc rt)
    refine ⟨chunk :: slots, by simp [hlen], ?_, ?_⟩
    · rw [List.foldl_cons, hflat, hch]
      simp
    · intro pr hpr
      rw [List.zip_cons_cons] at hpr
      rcases List.mem_cons.mp hpr with rfl | h
      · exact hchP
      · exact hP pr h

theorem flatten_map_nil {α : Type} (l : List α) :
    (l.map (fun _ => ([] : List Request))).flatten = [] := by
  induction l with
  | nil => rfl
  | cons a l ih => simpa using ih

theorem collectBufferNonlifecycleRequests_slots (bos : BufferOpenStates)
    (bs : BufferSettings) (off : XTime) (rts : List BufOp)
    (hwf : BufferSettingsWF bs) :
    ∃ slots : List (List Request),
      slots.length = rts.length
      ∧ (collectBufferNonlifecycleRequests bos bs off rts).1 = slots.flatten
      ∧ ∀ pr ∈ rts.zip slots, ∀ r ∈ pr.2,
          reqMatchesOp pr.1 r = true ∨ ∃ bid, r = Request.bufferClose bid := by
  unfold collectBufferNonlifecycleRequests
  cases hl : lookupAssoc bs off with
  | none =>
    refine ⟨rts.map (fun _ => []), by simp, by simp [flatten_map_nil], ?_⟩
    intro pr hpr r hr
    have := (List.of_mem_zip hpr).2
    obtain ⟨_, _, h⟩ := List.mem_map.mp this
    rw [← h] at hr
    simp at hr
  | some settings =>
    have hwfS : ∀ q ∈ settings, ∀ r ∈ q.2, reqMatchesOp q.1 r = true := by
      obtain ⟨p, hp, _, hp2⟩ := mem_of_lookupAssoc hl
      intro q hq r hr
      exact hwf p hp q (hp2 ▸ hq) r hr
    obtain ⟨slots, h1, h2, h3⟩ := nonlifecycle_fold_slots settings hwfS rts ([], bos)
    exact ⟨slots, h1, by simpa using h2, h3⟩

end NRT

namespace NRT

theorem isBufferPostAlloc_of_matches {rt : BufOp} {r : Request}
    (hrt : ¬ rt = BufOp.write) (h : reqMatchesOp rt r = true) :
    r.isBufferPostAlloc = true := by
  cases rt <;> cases r <;>
    simp_all [reqMatchesOp, Request.isBufferPostAlloc]

theorem isBufferWriteOrClose_of_matches {r : Request}
    (h : reqMatchesOp BufOp.write r = true) : r.isBufferWriteOrClose = true := by
  cases r <;> simp_all [reqMatchesOp, Request.isBufferWriteOrClose]

theorem exists_fst_of_mem_of_length {α β : Type} :
    ∀ (as : List α) (bs : List β), bs.length = as.length →
    ∀ b ∈ bs, ∃ a ∈ as, (a, b) ∈ as.zip bs := by
  intro as
  induction as with
  | nil =>
    intro bs h b hb
    cases bs with
    | nil => simp at hb
    | cons b0 bs' => simp at h
  | cons a as ih =>
    intro bs h b hb
    cases bs with
    | nil => simp at hb
    | cons b0 bs' =>
      rcases List.mem_cons.mp hb with rfl | hb'
      · exact ⟨a, by simp, by rw [List.zip_cons_cons]; simp⟩
      · obtain ⟨a', ha', hz⟩ := ih bs' (by simpa using h) b hb'
        exact ⟨a', by simp [ha'],
          by rw [List.zip_cons_cons]; exact List.mem_cons_of_mem _ hz⟩

theorem collectBufferNonlifecycle_postalloc_pred (bos : BufferOpenStates)
    (bs : BufferSettings) (off : XTime) (hwf : BufferSettingsWF bs) :
    ∀ r ∈ (collectBufferNonlifecycleRequests bos bs off
        orderedBufferPostAllocRequestTypes).1, r.isBufferPostAlloc = true := by
  obtain ⟨slots, hlen, hflat, hP⟩ :=
    collectBufferNonlifecycleRequests_slots bos bs off
      orderedBufferPostAllocRequestTypes hwf
  intro r hr
  rw [hflat] at hr
  obtain ⟨l, hl, hrl⟩ := List.mem_flatten.mp hr
  obtain ⟨rt, hrtmem, hzip⟩ :=
    exists_fst_of_mem_of_length orderedBufferPostAllocRequestTypes slots hlen l hl
  rcases hP (rt, l) hzip r hrl with hm | ⟨bid, rfl⟩
  · refine isBufferPostAlloc_of_matches ?_ hm
    intro he
    subst he
    exact (by decide : BufOp.write ∉ orderedBufferPostAllocRequestTypes) hrtmem
  · rfl

theorem collectBufferNonlifecycle_prefree_pred (bos : BufferOpenStates)
    (bs : BufferSettings) (off : XTime) (hwf : BufferSettingsWF bs) :
    ∀ r ∈ (collectBufferNonlifecycleRequests bos bs off
        orderedBufferPreFreeRequestTypes).1, r.isBufferWriteOrClose = true := by
  obtain ⟨slots, hlen, hflat, hP⟩ :=
    collectBufferNonlifecycleRequests_slots bos bs off
      orderedBufferPreFreeRequestTypes hwf
  intro r hr
  rw [hflat] at hr
  obtain ⟨l, hl, hrl⟩ := List.mem_flatten.mp hr
  obtain ⟨rt, hrtmem, hzip⟩ :=
    exists_fst_of_mem_of_length orderedBufferPreFreeRequestTypes slots hlen l hl
  have hrtw : rt = BufOp.write := by
    simpa [orderedBufferPreFreeRequestTypes] using hrtmem
  rcases hP (rt, l) hzip r hrl with hm | ⟨bid, rfl⟩
  · exact isBufferWriteOrClose_of_matches (hrtw ▸ hm)
  · rfl

end NRT

namespace NRT

theorem foldl_invariant {α β : Type} (P : β → Prop) (f : β → α → β) :
    ∀ (l : List α) (b : β), (∀ (b' : β) (a : α), a ∈ l → P b' → P (f b' a)) →
    P b → P (l.foldl f b) := by
  intro l
  induction l with
  | nil => intro b _ h; exact h
  | cons a l ih =>
    intro b hf h
    exact ih _ (fun b' a' ha' => hf b' a' (by simp [ha'])) (hf b a (by simp) h)

theorem reqMatchesOp_compileBufferEvent (bid : ℕ) (ev : BufEvent) :
    reqMatchesOp ev.op (compileBufferEvent bid ev) = true := by
  cases hop : ev.op <;> cases hci : ev.channelIndices <;>
    simp [compileBufferEvent, hop, hci, reqMatchesOp]

theorem appendNested_wf {bs : BufferSettings} {off : XTime} {op : BufOp}
    {r : Request} (hbs : BufferSettingsWF bs) (hr : reqMatchesOp op r = true) :
    BufferSettingsWF (appendNestedBufferSetting bs off op r) := by
  unfold appendNestedBufferSetting
  cases hl : lookupAssoc bs off with
  | none =>
    intro p hp q hq r' hr'
    rcases List.mem_append.mp hp with h | h
    · exact hbs p h q hq r' hr'
    · simp only [List.mem_singleton] at h
      subst h
      simp only [List.mem_singleton] at hq
      subst hq
      simp only [List.mem_singleton] at hr'
      subst hr'
      exact hr
  | some inner =>
    have hinner : ∀ q ∈ inner, ∀ r' ∈ q.2, reqMatchesOp q.1 r' = true := by
      obtain ⟨p, hp, _, hp2⟩ := mem_of_lookupAssoc hl
      intro q hq r' hr'
      exact hbs p hp q (hp2 ▸ hq) r' hr'
    dsimp only
    have hinner' : ∀ q ∈ (match lookupAssoc inner op with
        | none => inner ++ [(op, [r])]
        | some rs => updateAssoc inner op (rs ++ [r])),
        ∀ r' ∈ q.2, reqMatchesOp q.1 r' = true := by
      cases hlo : lookupAssoc inner op with
      | none =>
        intro q hq r' hr'
        rcases List.mem_append.mp hq with h | h
        · exact hinner q h r' hr'
        · simp only [List.mem_singleton] at h
          subst h
          simp only [List.mem_singleton] at hr'
          subst hr'
          exact hr
      | some rs =>
        have hrs : ∀ r' ∈ rs, reqMatchesOp op r' = true := by
          obtain ⟨q, hq, hq1, hq2⟩ := mem_of_lookupAssoc hlo
          intro r' hr'
          rw [← hq1]
          exact hinner q hq r' (hq2 ▸ hr')
        intro q hq r' hr'
        rcases mem_updateAssoc hq with h | h
        · exact hinner q h r' hr'
        · subst h
          rcases List.mem_append.mp hr' with h' | h'
          · exact hrs r' h'
          · simp only [List.mem_singleton] at h'
            subst h'
            exact hr
    intro p hp q hq r' hr'
    rcases mem_updateAssoc hp with h | h
    · exact hbs p h q hq r' hr'
    · subst h
      exact hinner' q hq r' hr'

theorem collectBufferSettings_wf (s : Session) (m : IdMap) :
    BufferSettingsWF (collectBufferSettings s m) := by
  unfold collectBufferSettings
  refine foldl_invariant BufferSettingsWF _ _ _ ?_ ?_
  · intro bs b _ hbs
    dsimp only
    refine foldl_invariant BufferSettingsWF _ _ _ ?_ hbs
    intro bs' ev _ hbs'
    exact appendNested_wf hbs' (reqMatchesOp_compileBufferEvent _ ev)
  · intro p hp
    simp at hp

end NRT

namespace NRT

/-- C2 (amended): per-offset emission order.  The requests emitted for an
offset are the concatenation of the nine collector categories in their fixed
order — (1) synthdef-receive, (2) buffer allocate, (3) buffer
post-allocation, (4) node-tree transitions, (5) control-bus set, (6) node
set/map, (7) node free and gate-off, (8) buffer write, (9) buffer close and
free — and category (3) splits into the nine post-allocation slots in the
order read, read-channels, zero, fill, generate, set, set-contiguous,
normalize, copy, where each slot holds the requests *filed under that
original event type* (a read event with explicit channel indices compiles to
a read-channels request but is emitted in the read slot) together with the
close requests injected before re-reading a buffer left open. -/
theorem collectRequestsAtOffset_category_order (s : Session) (env : CompileEnv)
    (bos : BufferOpenStates) (isLast : Bool) (offset : XTime)
    (visited : List SynthDefM) (hwf : BufferSettingsWF env.bufferSettings) :
    ∃ r1 r2 r3 r4 r5 r6 r7 r8 r9 : List Request,
      (s.collectRequestsAtOffset env bos isLast offset visited).1 =
        r1 ++ r2 ++ r3 ++ r4 ++ r5 ++ r6 ++ r7 ++ r8 ++ r9
      ∧ (∀ r ∈ r1, r.isSynthdefReceive = true)
      ∧ (∀ r ∈ r2, r.isBufferAllocate = true)
      ∧ (∀ r ∈ r3, r.isBufferPostAlloc = true)
      ∧ (∃ slots : List (List Request),
          slots.length = orderedBufferPostAllocRequestTypes.length
          ∧ r3 = slots.flatten
          ∧ ∀ pr ∈ orderedBufferPostAllocRequestTypes.zip slots, ∀ r ∈ pr.2,
              reqMatchesOp pr.1 r = true ∨ ∃ bid, r = Request.bufferClose bid)
      ∧ (∀ r ∈ r4, r.isNodeAction = true)
      ∧ (∀ r ∈ r5, r.isControlBusSet = true)
      ∧ (∀ r ∈ r6, r.isNodeSetOrMap = true)
      ∧ (∀ r ∈ r7, r.isNodeFreeOrGateOff = true)
      ∧ (∀ r ∈ r8, r.isBufferWriteOrClose = true)
      ∧ (∀ r ∈ r9, r.isBufferCloseOrFree = true) := by
  simp only [Session.collectRequestsAtOffset]
  refine ⟨_, _, _, _, _, _, _, _, _, rfl, ?_, ?_, ?_, ?_, ?_, ?_, ?_, ?_, ?_, ?_⟩
  · exact collectSynthdefRequests_pred _ _
  · exact collectBufferAllocateRequests_pred _ _ _
  · exact collectBufferNonlifecycle_postalloc_pred _ _ _ hwf
  · exact collectBufferNonlifecycleRequests_slots _ _ _ _ hwf
  · exact collectNodeActionRequests_pred _ _ _ _ _
  · exact collectBusSetRequests_pred _ _
  · exact collectNodeSetRequests_pred _ _
  · exact collectNodeFreeRequests_pred _ _
  · exact collectBufferNonlifecycle_prefree_pred _ _ _ hwf
  · exact collectBufferFreeRequests_pred _ _ _

end NRT

namespace NRT

/-- Witness for C2 at concrete inputs: a fresh session's pipeline-built
buffer settings are well-formed and the offset-0 emission decomposes into the
nine ordered categories. -/
theorem collectRequestsAtOffset_category_order_witness :
    BufferSettingsWF (compileEnvOf (initialSession 0 0) 1).bufferSettings
    ∧ (∃ r1 r2 r3 r4 r5 r6 r7 r8 r9 : List Request,
        ((initialSession 0 0).collectRequestsAtOffset
            (compileEnvOf (initialSession 0 0) 1) [] false (xfin 0) []).1 =
          r1 ++ r2 ++ r3 ++ r4 ++ r5 ++ r6 ++ r7 ++ r8 ++ r9
        ∧ (∀ r ∈ r1, r.isSynthdefReceive = true)
        ∧ (∀ r ∈ r2, r.isBufferAllocate = true)
        ∧ (∀ r ∈ r3, r.isBufferPostAlloc = true)
        ∧ (∃ slots : List (List Request),
            slots.length = orderedBufferPostAllocRequestTypes.length
            ∧ r3 = slots.flatten
            ∧ ∀ pr ∈ orderedBufferPostAllocRequestTypes.zip slots, ∀ r ∈ pr.2,
                reqMatchesOp pr.1 r = true ∨ ∃ bid, r = Request.bufferClose bid)
        ∧ (∀ r ∈ r4, r.isNodeAction = true)
        ∧ (∀ r ∈ r5, r.isControlBusSet = true)
        ∧ (∀ r ∈ r6, r.isNodeSetOrMap = true)
        ∧ (∀ r ∈ r7, r.isNodeFreeOrGateOff = true)
        ∧ (∀ r ∈ r8, r.isBufferWriteOrClose = true)
        ∧ (∀ r ∈ r9, r.isBufferCloseOrFree = true)) :=
  ⟨collectBufferSettings_wf (initialSession 0 0)
      (buildIdMapping (initialSession 0 0)),
    collectRequestsAtOffset_category_order (initialSession 0 0)
      (compileEnvOf (initialSession 0 0) 1) [] false (xfin 0) []
      (collectBufferSettings_wf (initialSession 0 0)
        (buildIdMapping (initialSession 0 0)))⟩

/-- The base state of the C2 counterexample session. -/
def c2St0 : StateM := { offset := ⊥, nodesToChildren := some [(rootNode, [])] }

/-- C2 counterexample session: two buffers, each with a read event at offset
5; the first buffer's read carries explicit channel indices. -/
def c2Session : Session :=
  { offsets := [⊥, xfin 0, xfin 5]
    states := [(⊥, c2St0), (xfin 0, c2St0.clone (xfin 0)),
      (xfin 5, c2St0.clone (xfin 5))]
    buffers :=
      [{ sessionId := 0
         events := [{ op := BufOp.read
                      offset := xfin 5
                      channelIndices := some [0] }] },
       { sessionId := 1
         events := [{ op := BufOp.read
                      offset := xfin 5 }] }] }

/-- Counterexample to C2's literal slot order: compiling `c2Session` emits,
at offset 5, a buffer-read-channels request *before* a buffer-read request,
because a read event with explicit channel indices compiles to a
read-channels request but stays filed under the read slot
(`_collect_buffer_settings` keys `buffer_settings` by the *original* event
type).  The claimed order "read, read-channels, …" over emitted request
types is therefore violated. -/
theorem bufferReadChannel_precedes_read_in_read_slot :
    (c2Session.toBundles (some 10)).1 =
      [⟨5, [Request.bufferReadChannel 0 false [0], Request.bufferRead 1 false]⟩,
        ⟨10, [Request.nothing]⟩] := by
  rfl

end NRT
